import Mathlib

/-!
Verification of the WebSocket filesystem provider core: a shallow embedding
of the wire codec (src/wireProtocol.ts), the command/response schemas
(src/fileSystemProtocol/commands.ts, responses.ts), the in-memory filesystem
tree (util/inMemoryFileSystem.ts), the server dispatcher's error conversion
(exampleServer.ts) and the RPC client's response correlation
(webSocketClient.ts), together with theorems settling the specified
properties of these components.

Byte buffers are modelled as `List Nat` (each element a byte value), JSON
values as an inductive `Json` with integer numerals (the only numbers this
protocol carries), and JavaScript exceptions as `Except`/`Option` results.
-/

/-- JSON values as produced by the runtime's JSON.parse: objects are
insertion-ordered key/value lists (duplicate keys collapsed, last value wins,
first position kept, as in JavaScript). Numbers are restricted to integers,
the only numerals this protocol ever carries. -/
inductive Json where
  | null : Json
  | bool (b : Bool) : Json
  | num (n : Int) : Json
  | str (s : String) : Json
  | arr (xs : List Json) : Json
  | obj (fields : List (String × Json)) : Json

/-- Association-list get: first binding wins (JavaScript objects and Maps hold
at most one binding per key). -/
def assocGet {α : Type} (l : List (String × α)) (k : String) : Option α :=
  match l with
  | [] => none
  | (k', v) :: rest => if k' = k then some v else assocGet rest k

/-- Association-list set with JavaScript Map/object semantics: an existing
binding is overwritten in place (keeping its position), a new binding is
appended at the end. -/
def assocSet {α : Type} (l : List (String × α)) (k : String) (v : α) : List (String × α) :=
  match l with
  | [] => [(k, v)]
  | (k', v') :: rest => if k' = k then (k', v) :: rest else (k', v') :: assocSet rest k v

/-- Association-list delete, mirroring JavaScript's Map.delete. -/
def assocDelete {α : Type} (l : List (String × α)) (k : String) : List (String × α) :=
  match l with
  | [] => []
  | (k', v') :: rest => if k' = k then rest else (k', v') :: assocDelete rest k

-- UTF-8 encoding of a character, as performed by TextEncoder.

/-- The UTF-8 byte sequence of one character (models TextEncoder). -/
def utf8EncodeChar (c : Char) : List Nat :=
  let n := c.toNat
  if n < 128 then [n]
  else if n < 2048 then [192 + n / 64, 128 + n % 64]
  else if n < 65536 then [224 + n / 4096, 128 + (n / 64) % 64, 128 + n % 64]
  else [240 + n / 262144, 128 + (n / 4096) % 64, 128 + (n / 64) % 64, 128 + n % 64]

/-- Lowercase hex digit byte, as used by JSON.stringify's control escapes. -/
def hexDigitByte (n : Nat) : Nat :=
  if n < 10 then 48 + n else 87 + n

/-- The bytes JSON.stringify emits for one character of a string literal:
quote and backslash and the named control characters get two-byte escapes,
other control characters get a \u00XX escape, everything else is emitted
as its UTF-8 bytes. -/
def escapeCharBytes (c : Char) : List Nat :=
  if c = '"' then [92, 34]
  else if c = '\\' then [92, 92]
  else if c.toNat = 8 then [92, 98]
  else if c.toNat = 9 then [92, 116]
  else if c.toNat = 10 then [92, 110]
  else if c.toNat = 12 then [92, 102]
  else if c.toNat = 13 then [92, 114]
  else if c.toNat < 32 then [92, 117, 48, 48, hexDigitByte (c.toNat / 16), hexDigitByte (c.toNat % 16)]
  else utf8EncodeChar c

/-- Bytes of a JSON string literal including the surrounding quotes. -/
def strLitBytes (s : String) : List Nat :=
  34 :: (s.data.map escapeCharBytes).flatten ++ [34]

/-- ASCII bytes of an integer's decimal representation, as JSON.stringify
prints integer-valued numbers. -/
def intLitBytes (n : Int) : List Nat :=
  (toString n).data.map Char.toNat

mutual

/-- Models the composition used by the wire codec:
TextEncoder().encode(JSON.stringify(value)). -/
def jsonToBytes : Json → List Nat
  | .null => [110, 117, 108, 108]
  | .bool true => [116, 114, 117, 101]
  | .bool false => [102, 97, 108, 115, 101]
  | .num n => intLitBytes n
  | .str s => strLitBytes s
  | .arr xs => 91 :: jsonArrBytes xs ++ [93]
  | .obj fs => 123 :: jsonObjBytes fs ++ [125]

/-- Comma-separated serialization of array elements. -/
def jsonArrBytes : List Json → List Nat
  | [] => []
  | [x] => jsonToBytes x
  | x :: y :: rest => jsonToBytes x ++ 44 :: jsonArrBytes (y :: rest)

/-- Comma-separated serialization of object members. -/
def jsonObjBytes : List (String × Json) → List Nat
  | [] => []
  | [(k, v)] => strLitBytes k ++ 58 :: jsonToBytes v
  | (k, v) :: m :: rest => strLitBytes k ++ 58 :: jsonToBytes v ++ 44 :: jsonObjBytes (m :: rest)

end

-- JSON parsing, modelling the runtime's JSON.parse applied to the UTF-8
-- decoding of the byte slice (restricted to integer numerals).

/-- JSON whitespace bytes. -/
def jsonWsByte (b : Nat) : Bool :=
  b = 32 || b = 9 || b = 10 || b = 13

/-- Skip leading JSON whitespace. -/
def skipWs : List Nat → List Nat
  | [] => []
  | b :: bs => if jsonWsByte b then skipWs bs else b :: bs

/-- ASCII decimal digit. -/
def isDigitByte (b : Nat) : Bool :=
  48 ≤ b && b ≤ 57

/-- Hex digit value of an ASCII byte, if any. -/
def hexVal (b : Nat) : Option Nat :=
  if 48 ≤ b && b ≤ 57 then some (b - 48)
  else if 97 ≤ b && b ≤ 102 then some (b - 87)
  else if 65 ≤ b && b ≤ 70 then some (b - 55)
  else none

/-- Decode one UTF-8 encoded character from the front of the byte list
(models TextDecoder's per-character decoding; malformed sequences become
the replacement character, as the non-fatal TextDecoder produces). -/
def utf8DecodeFirst : List Nat → Option (Char × List Nat)
  | [] => none
  | b :: bs =>
    if b < 128 then some (Char.ofNat b, bs)
    else if b < 192 then some (Char.ofNat 65533, bs)
    else if b < 224 then
      match bs with
      | b1 :: rest =>
        if 128 ≤ b1 && b1 < 192 then some (Char.ofNat ((b - 192) * 64 + (b1 - 128)), rest)
        else some (Char.ofNat 65533, bs)
      | [] => some (Char.ofNat 65533, bs)
    else if b < 240 then
      match bs with
      | b1 :: b2 :: rest =>
        if (128 ≤ b1 && b1 < 192) && (128 ≤ b2 && b2 < 192) then
          some (Char.ofNat ((b - 224) * 4096 + (b1 - 128) * 64 + (b2 - 128)), rest)
        else some (Char.ofNat 65533, bs)
      | _ => some (Char.ofNat 65533, bs)
    else
      match bs with
      | b1 :: b2 :: b3 :: rest =>
        if (128 ≤ b1 && b1 < 192) && ((128 ≤ b2 && b2 < 192) && (128 ≤ b3 && b3 < 192)) then
          some (Char.ofNat ((b - 240) * 262144 + (b1 - 128) * 4096 + (b2 - 128) * 64 + (b3 - 128)), rest)
        else some (Char.ofNat 65533, bs)
      | _ => some (Char.ofNat 65533, bs)

/-- Parse a run of decimal digits (at least one) into a Nat. -/
def parseNat (bs : List Nat) : Option (Nat × List Nat) :=
  let ds := bs.takeWhile isDigitByte
  if ds.isEmpty then none
  else some (ds.foldl (fun a b => a * 10 + (b - 48)) 0, bs.dropWhile isDigitByte)

mutual

/-- Parse one JSON value from the byte list (fuelled recursive descent). -/
def parseVal : Nat → List Nat → Option (Json × List Nat)
  | 0, _ => none
  | fuel + 1, bs =>
    match skipWs bs with
    | 110 :: 117 :: 108 :: 108 :: rest => some (.null, rest)
    | 116 :: 114 :: 117 :: 101 :: rest => some (.bool true, rest)
    | 102 :: 97 :: 108 :: 115 :: 101 :: rest => some (.bool false, rest)
    | 34 :: rest =>
      match parseStrBody fuel rest [] with
      | some (cs, rest') => some (.str ⟨cs⟩, rest')
      | none => none
    | 91 :: rest =>
      match skipWs rest with
      | 93 :: rest' => some (.arr [], rest')
      | _ =>
        match parseArrItems fuel rest [] with
        | some (xs, rest') => some (.arr xs, rest')
        | none => none
    | 123 :: rest =>
      match skipWs rest with
      | 125 :: rest' => some (.obj [], rest')
      | _ =>
        match parseObjItems fuel rest [] with
        | some (fs, rest') => some (.obj fs, rest')
        | none => none
    | 45 :: rest =>
      match parseNat rest with
      | some (n, rest') => some (.num (-(n : Int)), rest')
      | none => none
    | b :: rest =>
      if isDigitByte b then
        match parseNat (b :: rest) with
        | some (n, rest') => some (.num (n : Int), rest')
        | none => none
      else none
    | [] => none

/-- Parse the body of a string literal after the opening quote, accumulating
decoded characters. -/
def parseStrBody : Nat → List Nat → List Char → Option (List Char × List Nat)
  | 0, _, _ => none
  | _, [], _ => none
  | _ + 1, 34 :: rest, acc => some (acc.reverse, rest)
  | fuel + 1, 92 :: rest, acc =>
    match rest with
    | 34 :: r => parseStrBody fuel r ('"' :: acc)
    | 92 :: r => parseStrBody fuel r ('\\' :: acc)
    | 47 :: r => parseStrBody fuel r ('/' :: acc)
    | 98 :: r => parseStrBody fuel r (Char.ofNat 8 :: acc)
    | 102 :: r => parseStrBody fuel r (Char.ofNat 12 :: acc)
    | 110 :: r => parseStrBody fuel r (Char.ofNat 10 :: acc)
    | 114 :: r => parseStrBody fuel r (Char.ofNat 13 :: acc)
    | 116 :: r => parseStrBody fuel r (Char.ofNat 9 :: acc)
    | 117 :: h1 :: h2 :: h3 :: h4 :: r =>
      match hexVal h1, hexVal h2, hexVal h3, hexVal h4 with
      | some a, some b, some c, some d =>
        parseStrBody fuel r (Char.ofNat (a * 4096 + b * 256 + c * 16 + d) :: acc)
      | _, _, _, _ => none
    | _ => none
  | fuel + 1, b :: rest, acc =>
    match utf8DecodeFirst (b :: rest) with
    | some (c, rest') => parseStrBody fuel rest' (c :: acc)
    | none => none

/-- Parse the items of a non-empty array after the opening bracket. -/
def parseArrItems : Nat → List Nat → List Json → Option (List Json × List Nat)
  | 0, _, _ => none
  | fuel + 1, bs, acc =>
    match parseVal fuel bs with
    | none => none
    | some (v, rest) =>
      match skipWs rest with
      | 44 :: rest' => parseArrItems fuel rest' (v :: acc)
      | 93 :: rest' => some ((v :: acc).reverse, rest')
      | _ => none

/-- Parse the members of a non-empty object after the opening brace,
collapsing duplicate keys the way JavaScript objects do. -/
def parseObjItems : Nat → List Nat → List (String × Json) → Option (List (String × Json) × List Nat)
  | 0, _, _ => none
  | fuel + 1, bs, acc =>
    match skipWs bs with
    | 34 :: rest =>
      match parseStrBody fuel rest [] with
      | none => none
      | some (key, rest') =>
        match skipWs rest' with
        | 58 :: rest'' =>
          match parseVal fuel rest'' with
          | none => none
          | some (v, rest₃) =>
            let acc' := assocSet acc ⟨key⟩ v
            match skipWs rest₃ with
            | 44 :: rest₄ => parseObjItems fuel rest₄ acc'
            | 125 :: rest₄ => some (acc', rest₄)
            | _ => none
        | _ => none
    | _ => none

end

/-- Models stringToJSONSchema.parse applied to the decoded byte slice:
JSON.parse of the whole text, failing on trailing garbage. -/
def jsonFromBytes (bs : List Nat) : Option Json :=
  match parseVal (bs.length + 1) bs with
  | some (j, rest) => if (skipWs rest).isEmpty then some j else none
  | none => none

-- The wire protocol (src/wireProtocol.ts).

/-- An ASCII hex digit character. -/
def isHexChar (c : Char) : Bool :=
  ('0' ≤ c && c ≤ '9') || ('a' ≤ c && c ≤ 'f') || ('A' ≤ c && c ≤ 'F')

/-- Models zod's z.string().uuid() check (zod 3.23): 36 characters, dashes at
positions 8, 13, 18 and 23, hex digits elsewhere. -/
def isUuid (s : String) : Bool :=
  let cs := s.data
  cs.length = 36 &&
  (List.range 36).all (fun i =>
    if i = 8 || i = 13 || i = 18 || i = 23 then cs.getD i ' ' = '-'
    else isHexChar (cs.getD i ' '))

/-- The decoded shape of one wire frame: messageType tag, JSON envelope and
optional binary payload (a Uint8Array in the source). -/
structure Message where
  messageType : Nat
  messageJson : Json
  messageBinary : Option (List Nat)

/-- Field access on a JSON object. -/
def jsonField (j : Json) (k : String) : Option Json :=
  match j with
  | .obj fields => assocGet fields k
  | _ => none

/-- Models the messageJson part of commandMessageSchema: an object (with
passthrough for extra fields) whose command is a string and whose commandId
is a uuid string. -/
def commandJsonOk (j : Json) : Bool :=
  match j with
  | .obj _ =>
    (match jsonField j "command" with
     | some (.str _) => true
     | _ => false) &&
    (match jsonField j "commandId" with
     | some (.str s) => isUuid s
     | _ => false)
  | _ => false

/-- Models the messageJson part of responseMessageSchema: an object (with
passthrough) whose commandId is a uuid string and whose success is a
boolean. -/
def responseJsonOk (j : Json) : Bool :=
  match j with
  | .obj _ =>
    (match jsonField j "commandId" with
     | some (.str s) => isUuid s
     | _ => false) &&
    (match jsonField j "success" with
     | some (.bool _) => true
     | _ => false)
  | _ => false

/-- Models messageSchema.parse: the discriminated union on messageType
(0 = Command, 1 = Response, 2 = Event); jsonValueSchema accepts any JSON
for events; messageBinary is optional for all three variants. -/
def messageSchemaCheck (m : Message) : Bool :=
  if m.messageType = 0 then commandJsonOk m.messageJson
  else if m.messageType = 1 then responseJsonOk m.messageJson
  else if m.messageType = 2 then true
  else false

/-- The four bytes DataView.setUint32 writes big-endian for a value
(taken modulo 2^32). -/
def u32be (n : Nat) : List Nat :=
  [n / 16777216 % 256, n / 65536 % 256, n / 256 % 256, n % 256]

/-- Big-endian 32-bit read at an offset, as DataView.getUint32 performs
(the caller has checked the buffer is long enough). -/
def readU32 (bytes : List Nat) (off : Nat) : Nat :=
  bytes.getD off 0 % 256 * 16777216 + bytes.getD (off + 1) 0 % 256 * 65536 +
    bytes.getD (off + 2) 0 % 256 * 256 + bytes.getD (off + 3) 0 % 256

/-- Models arrayBufferFromMessage: 9-byte header (total payload length, json
length, message type), then the JSON bytes, then the binary payload bytes.
A present binary payload of length zero contributes nothing, exactly like
the source's zero-filled buffer. -/
def arrayBufferFromMessage (m : Message) : List Nat :=
  let jsonBytes := jsonToBytes m.messageJson
  let jsonLength := jsonBytes.length
  let binaryLength := (m.messageBinary.map List.length).getD 0
  u32be (jsonLength + binaryLength) ++ u32be jsonLength ++
    [m.messageType % 256] ++ jsonBytes ++ m.messageBinary.getD []

/-- Models messageFromBytes: reads the header (failing, like the thrown
DataView range error, when the buffer is shorter than the 9-byte header),
slices and parses the JSON text, slices the binary region when the declared
binary length is non-zero (slices clamp like Uint8Array.slice, and a negative
declared length yields an empty slice), then validates against
messageSchema. All failures surface as a discriminated failure result. -/
def messageFromBytes (bytes : List Nat) : Option Message :=
  if bytes.length < 9 then none
  else
    let totalLength := readU32 bytes 0
    let jsonLength := readU32 bytes 4
    let binaryLength : Int := (totalLength : Int) - (jsonLength : Int)
    let messageType := bytes.getD 8 0
    match jsonFromBytes ((bytes.drop 9).take jsonLength) with
    | none => none
    | some messageJson =>
      let messageBinary :=
        if binaryLength ≠ 0 then some ((bytes.drop (9 + jsonLength)).take binaryLength.toNat)
        else none
      let provisional : Message := ⟨messageType, messageJson, messageBinary⟩
      if messageSchemaCheck provisional then some provisional else none

-- The in-memory filesystem tree (src/util/inMemoryFileSystem.ts).

/-- A node of the virtual filesystem tree: InMemoryFile or InMemoryDirectory.
Each carries ctime, mtime, size (an Int: the source decrements it as a plain
JavaScript number, which can go negative) and its local name; a file holds
its content bytes and a directory its insertion-ordered child map. -/
inductive Entry where
  | file (ctime mtime : Nat) (size : Int) (name : String) (data : List Nat) : Entry
  | dir (ctime mtime : Nat) (size : Int) (name : String) (entries : List (String × Entry)) : Entry

/-- The stored local name of an entry. -/
def entryName : Entry → String
  | .file _ _ _ n _ => n
  | .dir _ _ _ n _ => n

/-- The stored size field of an entry. -/
def entrySize : Entry → Int
  | .file _ _ _ _ _ => 0
  | .dir _ _ s _ _ => s

/-- The possible FileSystemError values thrown by the tree (vscode's
FileSystemError factories used in inMemoryFileSystem.ts), each carrying the
offending path. -/
inductive FsError where
  | fileNotFound (p : String) : FsError
  | fileExists (p : String) : FsError
  | fileIsADirectory (p : String) : FsError
  | fileNotADirectory (p : String) : FsError
  | noPermissions (p : String) : FsError
deriving DecidableEq

/-- The error code string of a FileSystemError, as inspected by the server
dispatcher's switch. -/
def fsErrorCode : FsError → String
  | .fileNotFound _ => "FileNotFound"
  | .fileExists _ => "FileExists"
  | .fileIsADirectory _ => "FileIsADirectory"
  | .fileNotADirectory _ => "FileNotADirectory"
  | .noPermissions _ => "NoPermissions"

/-- Split a character list at slashes, with JavaScript's
String.prototype.split("/") semantics (structural so that it reduces). -/
def splitChars : List Char → List String
  | [] => [""]
  | c :: rest =>
    let r := splitChars rest
    if c = '/' then "" :: r
    else
      match r with
      | [] => [String.mk [c]]
      | s :: ss => String.mk (c :: s.data) :: ss

/-- urlPath.split("/"), as at the top of _lookup. -/
def splitPath (p : String) : List String :=
  splitChars p.data

/-- The non-empty path segments; the walk in _lookup skips empty parts, so
resolution follows exactly this list. -/
def normSegs (p : String) : List String :=
  (splitPath p).filter (fun s => s ≠ "")

/-- Models Node's path.posix.basename: the last non-empty segment, or the
empty string when there is none. -/
def posixBasename (p : String) : String :=
  (((splitPath p).filter (fun s => s ≠ "")).getLast?).getD ""

/-- The index of the last slash in the list, if any. -/
def lastSlashIdx (cs : List Char) : Option Nat :=
  match cs.reverse.findIdx? (fun c => c = '/') with
  | some r => some (cs.length - 1 - r)
  | none => none

/-- Models Node's path.posix.dirname: scan from the right, skip trailing
slashes, cut at the slash that ends the remaining prefix; a slash at index 0
is never a cut point, and a cut at index 1 of a root path yields "//". -/
def posixDirname (p : String) : String :=
  if p = "" then "."
  else
    let chars := p.data
    let hasRoot := chars.headD ' ' = '/'
    let trimmed := (chars.reverse.dropWhile (fun c => c = '/')).reverse
    match lastSlashIdx trimmed with
    | none => if hasRoot then "/" else "."
    | some 0 => if hasRoot then "/" else "."
    | some 1 => if hasRoot then "//" else ⟨chars.take 1⟩
    | some i => ⟨chars.take i⟩

/-- The walk of _lookup: follow the path parts from the given entry, skipping
empty parts; a missing child, or a file met where a child must be looked up,
resolves to none (the silent result; the throwing variant raises
FileNotFound). -/
def lookupParts : Entry → List String → Option Entry
  | e, [] => some e
  | e, part :: rest =>
    if part = "" then lookupParts e rest
    else
      match e with
      | .dir _ _ _ _ entries =>
        match assocGet entries part with
        | some child => lookupParts child rest
        | none => none
      | .file _ _ _ _ _ => none

/-- Models _lookup(urlPath, true): the silent lookup. -/
def lookupSilent (root : Entry) (urlPath : String) : Option Entry :=
  lookupParts root (splitPath urlPath)

/-- Models _lookup(urlPath, false): the throwing lookup. -/
def lookupE (root : Entry) (urlPath : String) : Except FsError Entry :=
  match lookupParts root (splitPath urlPath) with
  | some e => .ok e
  | none => .error (.fileNotFound urlPath)

/-- Models lookupDirectory(urlPath, silent): look up, then throw
FileNotADirectory unless the result is a directory (with silent lookup a
missing entry also falls through to FileNotADirectory). -/
def lookupDirectory (root : Entry) (urlPath : String) (silent : Bool) : Except FsError Entry :=
  if silent then
    match lookupParts root (splitPath urlPath) with
    | some (.dir c m s n es) => .ok (.dir c m s n es)
    | _ => .error (.fileNotADirectory urlPath)
  else
    match lookupE root urlPath with
    | .error err => .error err
    | .ok (.dir c m s n es) => .ok (.dir c m s n es)
    | .ok (.file _ _ _ _ _) => .error (.fileNotADirectory urlPath)

/-- Models lookupFile(urlPath): the throwing lookup, then FileIsADirectory
unless the result is a file. -/
def lookupFileE (root : Entry) (urlPath : String) : Except FsError Entry :=
  match lookupE root urlPath with
  | .error err => .error err
  | .ok (.file c m s n d) => .ok (.file c m s n d)
  | .ok (.dir _ _ _ _ _) => .error (.fileIsADirectory urlPath)

/-- Walk to the directory at the given path parts and transform it in place:
the functional rendering of looking up a directory reference and mutating it.
Walk failures raise FileNotFound for the given error path, exactly like
_lookup(errPath, false); the transformer itself rejects a non-directory at
the end (the lookupDirectory mismatch) and performs the operation's checks
and update. -/
def modifyAt {α : Type} (e : Entry) (parts : List String) (errPath : String)
    (f : Entry → Except FsError (α × Entry)) : Except FsError (α × Entry) :=
  match parts with
  | [] => f e
  | part :: rest =>
    if part = "" then modifyAt e rest errPath f
    else
      match e with
      | .file _ _ _ _ _ => .error (.fileNotFound errPath)
      | .dir c m s n entries =>
        match assocGet entries part with
        | none => .error (.fileNotFound errPath)
        | some child =>
          match modifyAt child rest errPath f with
          | .error err => .error err
          | .ok (a, child') => .ok (a, .dir c m s n (assocSet entries part child'))

/-- Replace the entry reached by the path parts (used to state what the
mutation operations do to the tree); unreachable paths leave the tree
unchanged. -/
def replaceAt (e : Entry) (parts : List String) (t : Entry) : Entry :=
  match parts with
  | [] => t
  | part :: rest =>
    if part = "" then replaceAt e rest t
    else
      match e with
      | .file c m s n d => .file c m s n d
      | .dir c m s n entries =>
        match assocGet entries part with
        | none => .dir c m s n entries
        | some child => .dir c m s n (assocSet entries part (replaceAt child rest t))

/-- Transform the directory reached by the path parts, silently doing nothing
on the unreachable (the functional rendering of mutating through a directory
reference that was captured before an earlier mutation: if the reference's
path became unreachable the mutation does not affect the observable tree). -/
def modifyAtSilent (e : Entry) (parts : List String) (f : Entry → Entry) : Option Entry :=
  match parts with
  | [] =>
    match e with
    | .dir c m s n es => some (f (.dir c m s n es))
    | .file _ _ _ _ _ => none
  | part :: rest =>
    if part = "" then modifyAtSilent e rest f
    else
      match e with
      | .file _ _ _ _ _ => none
      | .dir c m s n entries =>
        match assocGet entries part with
        | none => none
        | some child =>
          match modifyAtSilent child rest f with
          | none => none
          | some child' => some (.dir c m s n (assocSet entries part child'))

/-- Models writeFile(urlPath, content, { create, overwrite }): resolve the
parent directory (throwing), reject a directory target, a missing target
without create, and an existing target with create but not overwrite;
otherwise store the content (updating mtime and size, creating the file
entry when absent) and return whether it was created. The parent's own size
and mtime are not touched, exactly as in the source. -/
def writeFile (root : Entry) (urlPath : String) (content : List Nat)
    (create overwrite : Bool) (now : Nat) : Except FsError (Bool × Entry) :=
  let base := posixBasename urlPath
  let dirp := posixDirname urlPath
  modifyAt root (splitPath dirp) dirp (fun e =>
    match e with
    | .file _ _ _ _ _ => .error (.fileNotADirectory dirp)
    | .dir c m s n entries =>
      match assocGet entries base with
      | some (.dir _ _ _ _ _) => .error (.fileIsADirectory urlPath)
      | some (.file fc _ _ fn _) =>
        if create && !overwrite then .error (.fileExists urlPath)
        else .ok (false, .dir c m s n
          (assocSet entries base (.file fc now (content.length : Int) fn content)))
      | none =>
        if !create then .error (.fileNotFound urlPath)
        else .ok (true, .dir c m s n
          (assocSet entries base (.file now now (content.length : Int) base content))))

/-- Models deleteFile(urlPath): resolve the parent directory (throwing),
require the child to be present, remove it, update the parent's mtime and
decrement its size (a plain number decrement in the source). -/
def deleteFile (root : Entry) (urlPath : String) (now : Nat) : Except FsError Entry :=
  let base := posixBasename urlPath
  let dirp := posixDirname urlPath
  match modifyAt root (splitPath dirp) dirp (fun e =>
    match e with
    | .file _ _ _ _ _ => .error (.fileNotADirectory dirp)
    | .dir c _ s n entries =>
      if (assocGet entries base).isSome then
        .ok ((), .dir c now (s - 1) n (assocDelete entries base))
      else .error (.fileNotFound urlPath)) with
  | .error err => .error err
  | .ok (_, root') => .ok root'

/-- Models createDirectory(urlPath): resolve the parent directory (throwing),
then unconditionally set a fresh empty directory under the basename (silently
replacing any existing entry), update the parent's mtime and increment its
size. -/
def createDirectory (root : Entry) (urlPath : String) (now : Nat) : Except FsError Entry :=
  let base := posixBasename urlPath
  let dirp := posixDirname urlPath
  match modifyAt root (splitPath dirp) dirp (fun e =>
    match e with
    | .file _ _ _ _ _ => .error (.fileNotADirectory dirp)
    | .dir c _ s n entries =>
      .ok ((), .dir c now (s + 1) n (assocSet entries base (.dir now now 0 base [])))) with
  | .error err => .error err
  | .ok (_, root') => .ok root'

/-- The in-place name update of rename: entry.name = newName. -/
def setEntryName : Entry → String → Entry
  | .file c m s _ d, n => .file c m s n d
  | .dir c m s _ es, n => .dir c m s n es

/-- Models rename(oldPath, newPath, { overwrite }): reject an existing
destination without overwrite; look up the entry, its parent directory and
the destination's parent directory (in the source's order, all against the
tree as it stands); then delete the entry's name from the old parent and set
the renamed entry under the new parent. The source performs the two
mutations through references captured before them; functionally the delete
happens first and the attach acts on the resulting tree, silently not
affecting the observable tree when the destination parent became
unreachable (it was captured before the detach). -/
def renameEntry (root : Entry) (oldPath newPath : String) (overwrite : Bool) :
    Except FsError Entry :=
  if !overwrite && (lookupSilent root newPath).isSome then
    .error (.fileExists newPath)
  else
    match lookupE root oldPath with
    | .error err => .error err
    | .ok entry =>
      match lookupDirectory root (posixDirname oldPath) false with
      | .error err => .error err
      | .ok _ =>
        match lookupDirectory root (posixDirname newPath) false with
        | .error err => .error err
        | .ok _ =>
          let newName := posixBasename newPath
          match modifyAt root (splitPath (posixDirname oldPath)) (posixDirname oldPath)
            (fun e =>
              match e with
              | .file _ _ _ _ _ => .error (.fileNotADirectory (posixDirname oldPath))
              | .dir c m s n entries =>
                .ok ((), .dir c m s n (assocDelete entries (entryName entry)))) with
          | .error err => .error err
          | .ok (_, root₁) =>
            let renamed := setEntryName entry newName
            match modifyAtSilent root₁ (splitPath (posixDirname newPath)) (fun e =>
              match e with
              | .dir c m s n entries => .dir c m s n (assocSet entries newName renamed)
              | .file c m s n d => .file c m s n d) with
            | some root₂ => .ok root₂
            | none => .ok root₁

-- The command schemas (src/fileSystemProtocol/commands.ts).

/-- The command names accepted by pathOnlyCommandSchema. -/
def pathOnlyCommandNames : List String :=
  ["status", "readDirectory", "createDirectory", "readFile", "delete"]

/-- The declared messageJson field set of each operation's strict command
schema (the base command/commandId fields plus the operation's own), and
[] for names outside the command union. -/
def declaredFields (c : String) : List String :=
  if c ∈ pathOnlyCommandNames then ["command", "commandId", "path"]
  else if c = "watch" then ["command", "commandId", "path", "recursive", "excludes"]
  else if c = "rename" then ["command", "commandId", "oldPath", "newPath", "overwrite"]
  else if c = "copy" then ["command", "commandId", "sourcePath", "destinationPath", "overwrite"]
  else if c = "writeFile" then ["command", "commandId", "path", "create", "overwrite"]
  else []

/-- All operation names of the command union. -/
def allOperationNames : List String :=
  pathOnlyCommandNames ++ ["watch", "rename", "copy", "writeFile"]

/-- A JSON value is a string. -/
def fieldIsStr (o : Option Json) : Bool :=
  match o with
  | some (.str _) => true
  | _ => false

/-- A JSON value is a boolean. -/
def fieldIsBool (o : Option Json) : Bool :=
  match o with
  | some (.bool _) => true
  | _ => false

/-- A JSON value is an array of strings. -/
def fieldIsStrArray (o : Option Json) : Bool :=
  match o with
  | some (.arr xs) => xs.all (fun x => match x with | .str _ => true | _ => false)
  | _ => false

/-- The base checks shared by every command schema variant: a Command-typed
message whose json is an object carrying a uuid commandId, with the strict
key check against the variant's declared field set. -/
def commandShapeOk (m : Message) (allowed : List String) : Bool :=
  (m.messageType = 0 : Bool) &&
  (match m.messageJson with
   | .obj fields =>
     (match assocGet fields "commandId" with
      | some (.str s) => isUuid s
      | _ => false) &&
     fields.all (fun kv => decide (kv.1 ∈ allowed))
   | _ => false)

/-- Models pathOnlyCommandSchema.parse succeeding: strict json with a
command from the enum plus a string path, and no binary payload
(z.never().optional()). -/
def pathOnlyCommandCheck (m : Message) : Bool :=
  commandShapeOk m ["command", "commandId", "path"] &&
  (match jsonField m.messageJson "command" with
   | some (.str c) => decide (c ∈ pathOnlyCommandNames)
   | _ => false) &&
  fieldIsStr (jsonField m.messageJson "path") &&
  m.messageBinary.isNone

/-- Models watchCommandSchema.parse succeeding. -/
def watchCommandCheck (m : Message) : Bool :=
  commandShapeOk m ["command", "commandId", "path", "recursive", "excludes"] &&
  (match jsonField m.messageJson "command" with
   | some (.str c) => c = "watch"
   | _ => false) &&
  fieldIsStr (jsonField m.messageJson "path") &&
  fieldIsBool (jsonField m.messageJson "recursive") &&
  fieldIsStrArray (jsonField m.messageJson "excludes") &&
  m.messageBinary.isNone

/-- Models renameCommandSchema.parse succeeding. -/
def renameCommandCheck (m : Message) : Bool :=
  commandShapeOk m ["command", "commandId", "oldPath", "newPath", "overwrite"] &&
  (match jsonField m.messageJson "command" with
   | some (.str c) => c = "rename"
   | _ => false) &&
  fieldIsStr (jsonField m.messageJson "oldPath") &&
  fieldIsStr (jsonField m.messageJson "newPath") &&
  fieldIsBool (jsonField m.messageJson "overwrite") &&
  m.messageBinary.isNone

/-- Models copyCommandSchema.parse succeeding. -/
def copyCommandCheck (m : Message) : Bool :=
  commandShapeOk m ["command", "commandId", "sourcePath", "destinationPath", "overwrite"] &&
  (match jsonField m.messageJson "command" with
   | some (.str c) => c = "copy"
   | _ => false) &&
  fieldIsStr (jsonField m.messageJson "sourcePath") &&
  fieldIsStr (jsonField m.messageJson "destinationPath") &&
  fieldIsBool (jsonField m.messageJson "overwrite") &&
  m.messageBinary.isNone

/-- Models writeFileCommandSchema.parse succeeding (binary payload is
optional for this variant). -/
def writeFileCommandCheck (m : Message) : Bool :=
  commandShapeOk m ["command", "commandId", "path", "create", "overwrite"] &&
  (match jsonField m.messageJson "command" with
   | some (.str c) => c = "writeFile"
   | _ => false) &&
  fieldIsStr (jsonField m.messageJson "path") &&
  fieldIsBool (jsonField m.messageJson "create") &&
  fieldIsBool (jsonField m.messageJson "overwrite")

/-- Models allCommandsNarrowableSchema.parse succeeding: the union of the
five variants, in the source's order. -/
def allCommandsAccept (m : Message) : Bool :=
  pathOnlyCommandCheck m || watchCommandCheck m || writeFileCommandCheck m ||
    renameCommandCheck m || copyCommandCheck m

-- Response schemas (src/fileSystemProtocol/responses.ts).

/-- The error codes admitted by createDirectoryResponseSchema's union. -/
def createDirectoryAllowedErrorCodes : List String :=
  ["FileNotFound", "FileExists", "NoPermissions"]

/-- The parsed result of readFileSuccessResponseSchema: a Response-typed
message whose strict json carries a uuid commandId and success = true; the
binary payload defaults to an empty byte array when the frame carries none
(the schema's .default substituting for an absent messageBinary). -/
structure ReadFileSuccess where
  commandId : String
  binary : List Nat

/-- Models readFileSuccessResponseSchema.parse succeeding. -/
def readFileSuccessParse (m : Message) : Option ReadFileSuccess :=
  if m.messageType = 1 then
    match m.messageJson with
    | .obj fields =>
      match assocGet fields "commandId", assocGet fields "success" with
      | some (.str cid), some (.bool true) =>
        if isUuid cid && fields.all (fun kv => kv.1 = "commandId" || kv.1 = "success") then
          some ⟨cid, m.messageBinary.getD []⟩
        else none
      | _, _ => none
    | _ => none
  else none

-- The server dispatcher's error conversion and readFile handler
-- (src/exampleServer.ts).

/-- Models errorResponse(code, commandId): a failure Response frame. -/
def errorResponseMsg (code : String) (commandId : String) : Message :=
  ⟨1, .obj [("success", .bool false), ("error", .str code), ("commandId", .str commandId)], none⟩

/-- Models errorResponseFromError: FileSystemError values whose code is in
the dispatcher's switch become failure Responses with the matching code;
everything else is rethrown (none). -/
def errorResponseFromError (e : FsError) (commandId : String) : Option Message :=
  if fsErrorCode e = "FileNotFound" || fsErrorCode e = "FileExists" ||
      fsErrorCode e = "FileIsADirectory" || fsErrorCode e = "NoPermissions" then
    some (errorResponseMsg (fsErrorCode e) commandId)
  else none

/-- Models the readFile command handler: look up the file (throwing), send a
success Response whose binary payload is the file's content — present even
when the content is empty; failures go through errorResponseFromError. The
success handler's dir case is unreachable (lookupFileE only returns
files). -/
def serverReadFile (root : Entry) (p commandId : String) : Option Message :=
  match lookupFileE root p with
  | .ok (.file _ _ _ _ data) =>
    some ⟨1, .obj [("success", .bool true), ("commandId", .str commandId)], some data⟩
  | .ok (.dir _ _ _ _ _) => none
  | .error e => errorResponseFromError e commandId

-- The RPC client's receive path (src/webSocketClient.ts).

/-- What the client's message listener does with one inbound frame: a frame
that fails to decode is logged and dropped; a Response frame resolves and
removes exactly the pending entry matching its commandId, or raises a fatal
local error when there is none; Event frames and any other message type
raise fatal local errors. Pending entries are modelled as commandId/token
pairs (the token standing for the request's deferred). -/
inductive ClientStep where
  | parseErrorIgnored : ClientStep
  | fatalError : ClientStep
  | resolved (commandId : String) (token : Nat) (pending' : List (String × Nat)) : ClientStep
deriving DecidableEq

/-- Models the ws message listener of createWebSocketClient. -/
def clientHandleFrame (pending : List (String × Nat)) (bytes : List Nat) : ClientStep :=
  match messageFromBytes bytes with
  | none => .parseErrorIgnored
  | some m =>
    if m.messageType = 1 then
      match jsonField m.messageJson "commandId" with
      | some (.str commandId) =>
        match assocGet pending commandId with
        | none => .fatalError
        | some token => .resolved commandId token (assocDelete pending commandId)
      | _ => .fatalError
    else .fatalError

-- Concrete instances used by the theorems below.

/-- The empty filesystem root, as createInMemoryFileSystem builds it (times
taken as 0). -/
def emptyRoot : Entry := .dir 0 0 0 "" []

/-- A frame whose header declares totalLength 10 and jsonLength 4 over a
16-byte buffer (so 9 + totalLength = 19 disagrees with the actual length):
header, the JSON text null, and only 3 of the declared 6 binary bytes. -/
def c2badFrame : List Nat :=
  [0, 0, 0, 10, 0, 0, 0, 4, 2, 110, 117, 108, 108, 1, 2, 3]

/-- A consistent frame: totalLength 5, jsonLength 4, Event type, the JSON
text null and one binary byte. -/
def c2goodFrame : List Nat :=
  [0, 0, 0, 5, 0, 0, 0, 4, 2, 110, 117, 108, 108, 9]

/-- A fixed uuid used by concrete witnesses. -/
def wUuid : String := "123e4567-e89b-12d3-a456-426614174000"

/-- A second fixed uuid used by concrete witnesses. -/
def wUuid2 : String := "00000000-0000-0000-0000-000000000002"

/-- A tree holding a file /a.txt and an empty directory /dir, as in the
spec's rename scenario. -/
def c6Root : Entry :=
  .dir 0 0 0 "" [("a.txt", Entry.file 1 1 2 "a.txt" [104, 105]),
    ("dir", Entry.dir 0 0 0 "dir" [])]

-- Arithmetic and slicing facts about the frame header.

theorem u32be_readback (a : Nat) (rest : List Nat) (h : a < 4294967296) :
    readU32 (u32be a ++ rest) 0 = a := by
  simp only [readU32, u32be, List.cons_append, List.nil_append, List.getD_cons_zero,
    List.getD_cons_succ]
  omega

theorem u32be_readback_second (a b : Nat) (rest : List Nat) (h : b < 4294967296) :
    readU32 (u32be a ++ u32be b ++ rest) 4 = b := by
  simp only [readU32, u32be, List.cons_append, List.nil_append, List.getD_cons_zero,
    List.getD_cons_succ]
  omega

/-- Decoding an encoded message: the header reads back, the JSON slice is the
JSON bytes, and the binary slice is the payload, reconstructed as absent when
its length is zero. Shared round-trip core for the wire-codec results. -/
theorem decode_encode_core (m : Message)
    (hschema : messageSchemaCheck m = true)
    (hjson : jsonFromBytes (jsonToBytes m.messageJson) = some m.messageJson)
    (hlen : (jsonToBytes m.messageJson).length + (m.messageBinary.getD []).length < 4294967296) :
    messageFromBytes (arrayBufferFromMessage m) =
      some ⟨m.messageType, m.messageJson,
        if m.messageBinary.getD [] = [] then none else some (m.messageBinary.getD [])⟩ := by
  obtain ⟨mt, mj, mb⟩ := m
  simp only at hjson hlen ⊢
  have hmt : mt < 256 := by
    by_contra hcon
    push_neg at hcon
    have h0 : mt ≠ 0 := by omega
    have h1 : mt ≠ 1 := by omega
    have h2 : mt ≠ 2 := by omega
    simp [messageSchemaCheck, h0, h1, h2] at hschema
  set js := jsonToBytes mj with hjs
  set bin := mb.getD [] with hbin
  have hbinlen : (mb.map List.length).getD 0 = bin.length := by
    cases mb <;> rfl
  have hbytes : arrayBufferFromMessage ⟨mt, mj, mb⟩ =
      u32be (js.length + bin.length) ++ u32be js.length ++ [mt] ++ js ++ bin := by
    simp only [arrayBufferFromMessage, hbinlen, Nat.mod_eq_of_lt hmt]
  rw [hbytes]
  have hlen9 : (u32be (js.length + bin.length) ++ u32be js.length ++ [mt] ++ js ++ bin).length =
      9 + js.length + bin.length := by
    simp only [u32be, List.length_append, List.length_cons, List.length_nil]
    try omega
  have hT : readU32 (u32be (js.length + bin.length) ++ u32be js.length ++ [mt] ++ js ++ bin) 0 =
      js.length + bin.length := by
    rw [List.append_assoc, List.append_assoc, List.append_assoc]
    exact u32be_readback _ _ hlen
  have hJ : readU32 (u32be (js.length + bin.length) ++ u32be js.length ++ [mt] ++ js ++ bin) 4 =
      js.length := by
    rw [List.append_assoc, List.append_assoc]
    exact u32be_readback_second _ _ _ (by omega)
  have hdrop9 : (u32be (js.length + bin.length) ++ u32be js.length ++ [mt] ++ js ++ bin).drop 9 =
      js ++ bin := by
    simp [u32be]
  have hgetD8 : (u32be (js.length + bin.length) ++ u32be js.length ++ [mt] ++ js ++ bin).getD 8 0 =
      mt := by
    simp [u32be, List.cons_append, List.getD_cons_zero, List.getD_cons_succ]
  have hguard : ¬ ((u32be (js.length + bin.length) ++ u32be js.length ++ [mt] ++ js ++ bin).length < 9) := by
    rw [hlen9]
    omega
  have hdropjl : ((u32be (js.length + bin.length) ++ u32be js.length ++ [mt] ++ js ++ bin).drop
      (9 + js.length)) = bin := by
    rw [← List.drop_drop, hdrop9, List.drop_left]
  simp only [messageFromBytes, if_neg hguard, hT, hJ, hgetD8, hdrop9, List.take_left, hjson,
    hdropjl]
  have hint : ((js.length + bin.length : Nat) : Int) - ((js.length : Nat) : Int) =
      (bin.length : Int) := by
    push_cast
    ring
  rw [hint]
  have hcheck : ∀ bv : Option (List Nat), messageSchemaCheck ⟨mt, mj, bv⟩ = true := by
    intro bv
    exact hschema
  by_cases hbe : bin = []
  · simp [hbe, hcheck]
  · have hblen : (bin.length : Int) ≠ 0 := by
      simp only [ne_eq, Nat.cast_eq_zero, List.length_eq_zero]
      exact hbe
    simp [hblen, Int.toNat_natCast, List.take_length, hcheck, hbe]

/-- C1: wire codec round-trip, as it actually holds on the code: decoding the
bytes produced by encoding a valid Message yields the message back whenever
its binary payload is absent or non-empty; a present zero-length payload
comes back absent (the encoder emits no binary segment for it and the
decoder reconstructs a zero-length segment as an absent payload), all other
fields intact. -/
theorem c1_roundtrip_amended (m : Message)
    (hschema : messageSchemaCheck m = true)
    (hjson : jsonFromBytes (jsonToBytes m.messageJson) = some m.messageJson)
    (hlen : (jsonToBytes m.messageJson).length + (m.messageBinary.getD []).length < 4294967296) :
    (m.messageBinary ≠ some [] → messageFromBytes (arrayBufferFromMessage m) = some m) ∧
    (m.messageBinary = some [] →
      messageFromBytes (arrayBufferFromMessage m) =
        some ⟨m.messageType, m.messageJson, none⟩) := by
  have hcore := decode_encode_core m hschema hjson hlen
  obtain ⟨mt, mj, mb⟩ := m
  cases mb with
  | none => simpa using hcore
  | some b =>
    by_cases hb : b = []
    · subst hb
      constructor
      · intro hne
        exact absurd rfl hne
      · intro _
        simpa using hcore
    · constructor
      · intro _
        simpa [hb] using hcore
      · intro hcontra
        simp [hb] at hcontra

/-- C1 fails as frozen: a valid Event message with a present zero-length
binary payload does not round-trip — it decodes with the payload absent. -/
theorem c1_roundtrip_counterexample :
    messageFromBytes (arrayBufferFromMessage ⟨2, Json.null, some []⟩) ≠
      some ⟨2, Json.null, some []⟩ := by
  intro h
  rw [show messageFromBytes (arrayBufferFromMessage ⟨2, Json.null, some []⟩) =
      some ⟨2, Json.null, none⟩ from rfl] at h
  simp at h

/-- Witness for the amended C1 round-trip at a concrete Event message with a
non-empty payload. -/
theorem c1_roundtrip_witness :
    messageSchemaCheck ⟨2, Json.str "x", some [7]⟩ = true ∧
    jsonFromBytes (jsonToBytes (Json.str "x")) = some (Json.str "x") ∧
    messageFromBytes (arrayBufferFromMessage ⟨2, Json.str "x", some [7]⟩) =
      some ⟨2, Json.str "x", some [7]⟩ := by
  refine ⟨rfl, rfl, ?_⟩
  have hlen : (jsonToBytes (Json.str "x")).length +
      (((⟨2, Json.str "x", some [7]⟩ : Message).messageBinary).getD []).length < 4294967296 := by
    have h3 : (jsonToBytes (Json.str "x")).length = 3 := rfl
    simp [h3]
  exact (c1_roundtrip_amended ⟨2, Json.str "x", some [7]⟩ rfl rfl hlen).1 (by simp)

/-- C2: the length invariant, as it actually holds on the code: when the
buffer's actual length agrees with the declared header (length = 9 +
totalLength, jsonLength ≤ totalLength), any successfully decoded message
carries an absent binary payload when totalLength = jsonLength and otherwise
a payload of length exactly totalLength − jsonLength. (Decode does not
reject buffers whose declared lengths disagree with the actual length — see
the counterexample.) -/
theorem c2_length_amended (bytes : List Nat)
    (hT : bytes.length = 9 + readU32 bytes 0)
    (hJ : readU32 bytes 4 ≤ readU32 bytes 0) :
    ∀ m, messageFromBytes bytes = some m →
      (readU32 bytes 4 = readU32 bytes 0 ∧ m.messageBinary = none) ∨
      (readU32 bytes 4 < readU32 bytes 0 ∧ ∃ b, m.messageBinary = some b ∧
        b.length = readU32 bytes 0 - readU32 bytes 4) := by
  intro m h
  have hguard : ¬ (bytes.length < 9) := by omega
  simp only [messageFromBytes, if_neg hguard] at h
  set T := readU32 bytes 0 with hTdef
  set J := readU32 bytes 4 with hJdef
  split at h
  · simp at h
  · by_cases hbz : ((T : Int) - (J : Int)) = 0
    · rw [if_neg (show ¬ ((T : Int) - (J : Int) ≠ 0) from fun hc => hc hbz)] at h
      split at h
      · have hm := Option.some.inj h
        left
        refine ⟨by omega, ?_⟩
        rw [← hm]
      · simp at h
    · rw [if_pos (show ((T : Int) - (J : Int) ≠ 0) from hbz)] at h
      split at h
      · have hm := Option.some.inj h
        right
        have hlt : J < T := by omega
        refine ⟨hlt, ?_⟩
        refine ⟨(bytes.drop (9 + J)).take ((T : Int) - (J : Int)).toNat, ?_, ?_⟩
        · rw [← hm]
        · have htn : ((T : Int) - (J : Int)).toNat = T - J := by omega
          rw [htn]
          have hdl : (bytes.drop (9 + J)).length = T - J := by
            simp [List.length_drop]
            omega
          simp [List.length_take, hdl]
      · simp at h

/-- C2 fails as frozen: a frame whose declared lengths disagree with the
actual buffer length (the header claims 6 binary bytes over a buffer holding
3) is decoded successfully into a message with a truncated 3-byte payload. -/
theorem c2_length_counterexample :
    messageFromBytes c2badFrame = some ⟨2, Json.null, some [1, 2, 3]⟩ ∧
    readU32 c2badFrame 0 - readU32 c2badFrame 4 = 6 ∧
    c2badFrame.length ≠ 9 + readU32 c2badFrame 0 ∧
    ([1, 2, 3] : List Nat).length ≠ readU32 c2badFrame 0 - readU32 c2badFrame 4 := by
  refine ⟨rfl, rfl, by decide, by decide⟩

/-- Witness for the amended C2 at a concrete consistent frame. -/
theorem c2_length_witness :
    c2goodFrame.length = 9 + readU32 c2goodFrame 0 ∧
    readU32 c2goodFrame 4 ≤ readU32 c2goodFrame 0 ∧
    ((readU32 c2goodFrame 4 = readU32 c2goodFrame 0 ∧
        (⟨2, Json.null, some [9]⟩ : Message).messageBinary = none) ∨
      (readU32 c2goodFrame 4 < readU32 c2goodFrame 0 ∧
        ∃ b, (⟨2, Json.null, some [9]⟩ : Message).messageBinary = some b ∧
          b.length = readU32 c2goodFrame 0 - readU32 c2goodFrame 4)) := by
  refine ⟨by decide, by decide, ?_⟩
  exact c2_length_amended c2goodFrame (by decide) (by decide) ⟨2, Json.null, some [9]⟩ rfl

-- Association-list facts (JavaScript Map semantics).

theorem assocGet_set_self {α : Type} (l : List (String × α)) (k : String) (v : α) :
    assocGet (assocSet l k v) k = some v := by
  induction l with
  | nil => simp [assocGet, assocSet]
  | cons hd tl ih =>
    obtain ⟨k', v'⟩ := hd
    by_cases hk : k' = k
    · simp [assocGet, assocSet, hk]
    · simp [assocGet, assocSet, hk, ih]

theorem assocGet_set_other {α : Type} (l : List (String × α)) (k k' : String) (v : α)
    (h : k' ≠ k) : assocGet (assocSet l k v) k' = assocGet l k' := by
  induction l with
  | nil =>
    simp only [assocSet, assocGet]
    exact if_neg (fun hc => h hc.symm)
  | cons hd tl ih =>
    obtain ⟨k₀, v₀⟩ := hd
    by_cases hk : k₀ = k
    · subst hk
      have hne : ¬ (k₀ = k') := fun hc => h hc.symm
      simp [assocGet, assocSet, hne]
    · simp only [assocSet, if_neg hk]
      by_cases hk' : k₀ = k'
      · simp [assocGet, hk']
      · simp [assocGet, hk', ih]

theorem assocGet_delete_other {α : Type} (l : List (String × α)) (k k' : String)
    (h : k' ≠ k) : assocGet (assocDelete l k) k' = assocGet l k' := by
  induction l with
  | nil => simp [assocDelete]
  | cons hd tl ih =>
    obtain ⟨k₀, v₀⟩ := hd
    by_cases hk : k₀ = k
    · subst hk
      have hne : ¬ (k₀ = k') := fun hc => h hc.symm
      simp [assocDelete, assocGet, hne]
    · simp only [assocDelete, if_neg hk]
      by_cases hk' : k₀ = k'
      · simp [assocGet, hk']
      · simp [assocGet, hk', ih]

theorem assocGet_mem_keys {α : Type} (l : List (String × α)) (k : String) (v : α)
    (h : assocGet l k = some v) : k ∈ l.map Prod.fst := by
  induction l with
  | nil => simp [assocGet] at h
  | cons hd tl ih =>
    obtain ⟨k₀, v₀⟩ := hd
    by_cases hk : k₀ = k
    · simp [hk]
    · simp only [assocGet, if_neg hk] at h
      simp [ih h]

theorem assocGet_delete_self {α : Type} (l : List (String × α)) (k : String)
    (h : (l.map Prod.fst).Nodup) : assocGet (assocDelete l k) k = none := by
  induction l with
  | nil => simp [assocDelete, assocGet]
  | cons hd tl ih =>
    obtain ⟨k₀, v₀⟩ := hd
    simp only [List.map_cons, List.nodup_cons] at h
    by_cases hk : k₀ = k
    · subst hk
      cases hg : assocGet tl k₀ with
      | none => simpa [assocDelete] using hg
      | some v => exact absurd (assocGet_mem_keys tl k₀ v hg) h.1
    · simp [assocDelete, assocGet, hk, ih h.2]

-- Walk facts: lookupParts, modifyAt, replaceAt, modifyAtSilent.

theorem lookupParts_filter (e : Entry) (ps : List String) :
    lookupParts e ps = lookupParts e (ps.filter (fun s => s ≠ "")) := by
  induction ps generalizing e with
  | nil => rfl
  | cons p rest ih =>
    by_cases hp : p = ""
    · simp [lookupParts, hp, ih]
    · cases e with
      | file c m s n d => simp [lookupParts, hp, List.filter]
      | dir c m s n es =>
        simp only [lookupParts, if_neg hp, List.filter_cons, if_pos (by simpa using hp)]
        cases hg : assocGet es p with
        | none => simp [lookupParts, hp, hg]
        | some child => simp [lookupParts, hp, hg, ih]

theorem modifyAt_filter {α : Type} (e : Entry) (ps : List String) (ep : String)
    (f : Entry → Except FsError (α × Entry)) :
    modifyAt e ps ep f = modifyAt e (ps.filter (fun s => s ≠ "")) ep f := by
  induction ps generalizing e with
  | nil => rfl
  | cons p rest ih =>
    by_cases hp : p = ""
    · simp [modifyAt, hp, ih]
    · cases e with
      | file c m s n d => simp [modifyAt, hp, List.filter_cons, if_pos (by simpa using hp)]
      | dir c m s n es =>
        simp only [modifyAt, if_neg hp, List.filter_cons, if_pos (by simpa using hp)]
        cases hg : assocGet es p with
        | none => simp [modifyAt, hp, hg]
        | some child => simp [modifyAt, hp, hg, ih]

theorem modifyAtSilent_filter (e : Entry) (ps : List String) (f : Entry → Entry) :
    modifyAtSilent e ps f = modifyAtSilent e (ps.filter (fun s => s ≠ "")) f := by
  induction ps generalizing e with
  | nil => rfl
  | cons p rest ih =>
    by_cases hp : p = ""
    · simp [modifyAtSilent, hp, ih]
    · cases e with
      | file c m s n d => simp [modifyAtSilent, hp, List.filter_cons, if_pos (by simpa using hp)]
      | dir c m s n es =>
        simp only [modifyAtSilent, if_neg hp, List.filter_cons, if_pos (by simpa using hp)]
        cases hg : assocGet es p with
        | none => simp [modifyAtSilent, hp, hg]
        | some child => simp [modifyAtSilent, hp, hg, ih]

theorem lookupParts_append (e : Entry) (xs ys : List String) :
    lookupParts e (xs ++ ys) =
      match lookupParts e xs with
      | some e' => lookupParts e' ys
      | none => none := by
  induction xs generalizing e with
  | nil => simp [lookupParts]
  | cons p rest ih =>
    by_cases hp : p = ""
    · simp [lookupParts, hp, ih]
    · cases e with
      | file c m s n d => simp [lookupParts, hp]
      | dir c m s n es =>
        simp only [List.cons_append, lookupParts, if_neg hp]
        cases hg : assocGet es p with
        | none => simp [lookupParts, hp, hg]
        | some child => simp [lookupParts, hp, hg, ih]

theorem modifyAt_none {α : Type} (e : Entry) (parts : List String) (ep : String)
    (f : Entry → Except FsError (α × Entry)) (h : lookupParts e parts = none) :
    modifyAt e parts ep f = .error (.fileNotFound ep) := by
  induction parts generalizing e with
  | nil => simp [lookupParts] at h
  | cons p rest ih =>
    by_cases hp : p = ""
    · simp only [lookupParts, if_pos hp] at h
      simp [modifyAt, hp, ih _ h]
    · cases e with
      | file c m s n d => simp [modifyAt, hp]
      | dir c m s n es =>
        simp only [lookupParts, if_neg hp] at h
        simp only [modifyAt, if_neg hp]
        cases hg : assocGet es p with
        | none => simp
        | some child =>
          rw [hg] at h
          simp [ih _ h]

theorem modifyAt_eq_ok {α : Type} (e : Entry) (parts : List String) (ep : String)
    (f : Entry → Except FsError (α × Entry)) (t t' : Entry) (a : α)
    (hl : lookupParts e parts = some t) (hf : f t = .ok (a, t')) :
    modifyAt e parts ep f = .ok (a, replaceAt e parts t') := by
  induction parts generalizing e with
  | nil =>
    simp only [lookupParts] at hl
    simp [modifyAt, replaceAt, Option.some.inj hl, hf]
  | cons p rest ih =>
    by_cases hp : p = ""
    · simp only [lookupParts, if_pos hp] at hl
      simp [modifyAt, replaceAt, hp, ih _ hl]
    · cases e with
      | file c m s n d => simp [lookupParts, hp] at hl
      | dir c m s n es =>
        simp only [lookupParts, if_neg hp] at hl
        simp only [modifyAt, replaceAt, if_neg hp]
        cases hg : assocGet es p with
        | none => rw [hg] at hl; simp at hl
        | some child =>
          rw [hg] at hl
          simp [ih _ hl]

theorem modifyAt_eq_error {α : Type} (e : Entry) (parts : List String) (ep : String)
    (f : Entry → Except FsError (α × Entry)) (t : Entry) (err : FsError)
    (hl : lookupParts e parts = some t) (hf : f t = .error err) :
    modifyAt e parts ep f = .error err := by
  induction parts generalizing e with
  | nil =>
    simp only [lookupParts] at hl
    simp [modifyAt, Option.some.inj hl, hf]
  | cons p rest ih =>
    by_cases hp : p = ""
    · simp only [lookupParts, if_pos hp] at hl
      simp [modifyAt, hp, ih _ hl]
    · cases e with
      | file c m s n d => simp [lookupParts, hp] at hl
      | dir c m s n es =>
        simp only [lookupParts, if_neg hp] at hl
        simp only [modifyAt, if_neg hp]
        cases hg : assocGet es p with
        | none => rw [hg] at hl; simp at hl
        | some child =>
          rw [hg] at hl
          simp [ih _ hl]

theorem modifyAt_error_cases {α : Type} (e : Entry) (parts : List String) (ep : String)
    (f : Entry → Except FsError (α × Entry)) (err : FsError)
    (h : modifyAt e parts ep f = .error err) :
    err = .fileNotFound ep ∨ ∃ t, lookupParts e parts = some t ∧ f t = .error err := by
  cases hl : lookupParts e parts with
  | none =>
    rw [modifyAt_none e parts ep f hl] at h
    exact Or.inl (Except.error.inj h).symm
  | some t =>
    cases hf : f t with
    | error err' =>
      rw [modifyAt_eq_error e parts ep f t err' hl hf] at h
      have herr : err' = err := Except.error.inj h
      subst herr
      refine Or.inr ⟨t, ?_, ?_⟩
      · rfl
      · exact hf
    | ok p =>
      obtain ⟨a, t'⟩ := p
      rw [modifyAt_eq_ok e parts ep f t t' a hl hf] at h
      simp at h

theorem modifyAtSilent_eq (e : Entry) (parts : List String) (f : Entry → Entry)
    (c m : Nat) (s : Int) (n : String) (es : List (String × Entry))
    (hl : lookupParts e parts = some (.dir c m s n es)) :
    modifyAtSilent e parts f = some (replaceAt e parts (f (.dir c m s n es))) := by
  induction parts generalizing e with
  | nil =>
    simp only [lookupParts] at hl
    rw [Option.some.inj hl]
    simp [modifyAtSilent, replaceAt]
  | cons p rest ih =>
    by_cases hp : p = ""
    · simp only [lookupParts, if_pos hp] at hl
      simp [modifyAtSilent, replaceAt, hp, ih _ hl]
    · cases e with
      | file cc mm ss nn dd => simp [lookupParts, hp] at hl
      | dir cc mm ss nn ees =>
        simp only [lookupParts, if_neg hp] at hl
        simp only [modifyAtSilent, replaceAt, if_neg hp]
        cases hg : assocGet ees p with
        | none => rw [hg] at hl; simp at hl
        | some child =>
          rw [hg] at hl
          simp [ih _ hl]

theorem lookup_replaceAt_self (e : Entry) (parts : List String) (t t' : Entry)
    (hl : lookupParts e parts = some t) :
    lookupParts (replaceAt e parts t') parts = some t' := by
  induction parts generalizing e with
  | nil => simp [lookupParts, replaceAt]
  | cons p rest ih =>
    by_cases hp : p = ""
    · simp only [lookupParts, if_pos hp] at hl
      simp [lookupParts, replaceAt, hp, ih _ hl]
    · cases e with
      | file c m s n d => simp [lookupParts, hp] at hl
      | dir c m s n es =>
        simp only [lookupParts, if_neg hp] at hl
        simp only [replaceAt, if_neg hp]
        cases hg : assocGet es p with
        | none => rw [hg] at hl; simp at hl
        | some child =>
          rw [hg] at hl
          simp [lookupParts, hp, assocGet_set_self, ih _ hl]

theorem lookup_replaceAt_below (e : Entry) (parts q : List String) (t t' : Entry)
    (hl : lookupParts e parts = some t) :
    lookupParts (replaceAt e parts t') (parts ++ q) = lookupParts t' q := by
  rw [lookupParts_append, lookup_replaceAt_self e parts t t' hl]

theorem lookup_replaceAt_above (e : Entry) (q : List String) (k : String) (rest : List String)
    (t : Entry) (c m : Nat) (s : Int) (n : String) (es : List (String × Entry)) (ch : Entry)
    (hk : k ≠ "") (hq : lookupParts e q = some (.dir c m s n es))
    (hch : assocGet es k = some ch) :
    lookupParts (replaceAt e (q ++ k :: rest) t) q =
      some (.dir c m s n (assocSet es k (replaceAt ch rest t))) := by
  induction q generalizing e with
  | nil =>
    simp only [lookupParts] at hq
    rw [Option.some.inj hq]
    simp [replaceAt, lookupParts, hk, hch]
  | cons p q' ih =>
    by_cases hp : p = ""
    · simp only [lookupParts, if_pos hp] at hq ⊢
      simp only [List.cons_append, replaceAt, if_pos hp]
      exact ih _ hq
    · cases e with
      | file cc mm ss nn dd => simp [lookupParts, hp] at hq
      | dir cc mm ss nn ees =>
        simp only [lookupParts, if_neg hp] at hq
        simp only [List.cons_append, replaceAt, if_neg hp]
        cases hg : assocGet ees p with
        | none => rw [hg] at hq; simp at hq
        | some child =>
          rw [hg] at hq
          simp [lookupParts, hp, assocGet_set_self, ih _ hq]

theorem lookup_replaceAt_diverge (e : Entry) (c : List String) (a b : String)
    (as bs : List String) (t : Entry) (hab : a ≠ b) (ha : a ≠ "") (hb : b ≠ "")
    (hc : "" ∉ c) :
    lookupParts (replaceAt e (c ++ a :: as) t) (c ++ b :: bs) =
      lookupParts e (c ++ b :: bs) := by
  induction c generalizing e with
  | nil =>
    cases e with
    | file cc mm ss nn dd => simp [replaceAt, ha]
    | dir cc mm ss nn ees =>
      simp only [List.nil_append, replaceAt, if_neg ha]
      cases hg : assocGet ees a with
      | none => rfl
      | some child =>
        simp only [lookupParts, if_neg hb]
        rw [assocGet_set_other ees a b _ (fun h => hab h.symm)]
  | cons p c' ih =>
    have hp : p ≠ "" := fun h => hc (by simp [← h])
    have hc' : "" ∉ c' := fun h => hc (by simp [h])
    cases e with
    | file cc mm ss nn dd => simp [replaceAt, lookupParts, hp]
    | dir cc mm ss nn ees =>
      simp only [List.cons_append, replaceAt, if_neg hp]
      cases hg : assocGet ees p with
      | none => rfl
      | some child =>
        simp only [lookupParts, if_neg hp, assocGet_set_self, hg]
        exact ih child hc'

/-- C3: writeFile postcondition. For every path whose parent directory
exists: a directory target fails FileIsADirectory; an absent target without
create fails FileNotFound; a present target with create and without
overwrite fails FileExists; otherwise the call succeeds, stores the content
under the basename with size = content length and mtime = now (a fresh entry
when absent, in place keeping ctime and name otherwise), returning created =
true exactly when a new entry was made. In particular the spec's concrete
scenario on the empty tree holds. -/
theorem c3_writeFile_postcondition (root : Entry) (p : String) (content : List Nat)
    (create overwrite : Bool) (now : Nat)
    (pc pm : Nat) (ps : Int) (pn : String) (pes : List (String × Entry))
    (hParent : lookupParts root (normSegs (posixDirname p)) = some (.dir pc pm ps pn pes)) :
    ((∀ dc dm ds dn des, assocGet pes (posixBasename p) = some (.dir dc dm ds dn des) →
      writeFile root p content create overwrite now = .error (.fileIsADirectory p)) ∧
    (assocGet pes (posixBasename p) = none → create = false →
      writeFile root p content create overwrite now = .error (.fileNotFound p)) ∧
    (∀ fc fm fs fn fd, assocGet pes (posixBasename p) = some (.file fc fm fs fn fd) →
      create = true → overwrite = false →
      writeFile root p content create overwrite now = .error (.fileExists p)) ∧
    (assocGet pes (posixBasename p) = none → create = true →
      ∃ root', writeFile root p content create overwrite now = .ok (true, root') ∧
        lookupParts root' (normSegs (posixDirname p)) =
          some (.dir pc pm ps pn (assocSet pes (posixBasename p)
            (.file now now (content.length : Int) (posixBasename p) content)))) ∧
    (∀ fc fm fs fn fd, assocGet pes (posixBasename p) = some (.file fc fm fs fn fd) →
      (create = false ∨ overwrite = true) →
      ∃ root', writeFile root p content create overwrite now = .ok (false, root') ∧
        lookupParts root' (normSegs (posixDirname p)) =
          some (.dir pc pm ps pn (assocSet pes (posixBasename p)
            (.file fc now (content.length : Int) fn content))))) ∧
    (∃ r₁ : Entry, writeFile emptyRoot "/a.txt" [104, 105] true false 1 = .ok (true, r₁) ∧
      writeFile r₁ "/a.txt" [104, 105] true false 2 = .error (.fileExists "/a.txt") ∧
      ∃ r₂ : Entry, writeFile r₁ "/a.txt" [106] true true 3 = .ok (false, r₂) ∧
        lookupParts r₂ (normSegs "/a.txt") = some (.file 1 3 1 "a.txt" [106])) := by
  simp only [normSegs, splitPath] at hParent
  constructor
  · refine ⟨?_, ?_, ?_, ?_, ?_⟩
    · intro dc dm ds dn des hg
      simp only [writeFile]
      rw [modifyAt_filter]
      exact modifyAt_eq_error _ _ _ _ (.dir pc pm ps pn pes) _ hParent (by simp [hg])
    · intro hg hcr
      simp only [writeFile]
      rw [modifyAt_filter]
      exact modifyAt_eq_error _ _ _ _ (.dir pc pm ps pn pes) _ hParent (by simp [hg, hcr])
    · intro fc fm fs fn fd hg hcr hov
      simp only [writeFile]
      rw [modifyAt_filter]
      exact modifyAt_eq_error _ _ _ _ (.dir pc pm ps pn pes) _ hParent
        (by simp [hg, hcr, hov])
    · intro hg hcr
      refine ⟨replaceAt root ((splitPath (posixDirname p)).filter (fun s => s ≠ ""))
          (.dir pc pm ps pn (assocSet pes (posixBasename p)
            (.file now now (content.length : Int) (posixBasename p) content))), ?_, ?_⟩
      · simp only [writeFile]
        rw [modifyAt_filter]
        exact modifyAt_eq_ok _ _ _ _ (.dir pc pm ps pn pes) _ _ hParent
          (by simp [hg, hcr])
      · simp only [normSegs, splitPath]
        exact lookup_replaceAt_self _ _ _ _ hParent
    · intro fc fm fs fn fd hg hco
      refine ⟨replaceAt root ((splitPath (posixDirname p)).filter (fun s => s ≠ ""))
          (.dir pc pm ps pn (assocSet pes (posixBasename p)
            (.file fc now (content.length : Int) fn content))), ?_, ?_⟩
      · simp only [writeFile]
        rw [modifyAt_filter]
        refine modifyAt_eq_ok _ _ _ _ (.dir pc pm ps pn pes) _ _ hParent ?_
        rcases hco with hco | hco
        · simp [hg, hco]
        · simp [hg, hco]
      · simp only [normSegs, splitPath]
        exact lookup_replaceAt_self _ _ _ _ hParent
  · refine ⟨.dir 0 0 0 "" [("a.txt", .file 1 1 2 "a.txt" [104, 105])], ?_, ?_,
      .dir 0 0 0 "" [("a.txt", .file 1 3 1 "a.txt" [106])], ?_, ?_⟩
    · rfl
    · rfl
    · rfl
    · rfl

/-- Witness for C3 at a concrete tree: creating a fresh file under an
existing directory. -/
theorem c3_writeFile_witness :
    lookupParts (Entry.dir 0 0 0 "" [("d", Entry.dir 0 0 0 "d" [])])
      (normSegs (posixDirname "/d/f.txt")) = some (.dir 0 0 0 "d" []) ∧
    (∃ root', writeFile (Entry.dir 0 0 0 "" [("d", Entry.dir 0 0 0 "d" [])]) "/d/f.txt"
        [104] true false 5 = .ok (true, root') ∧
      lookupParts root' (normSegs (posixDirname "/d/f.txt")) =
        some (.dir 0 0 0 "d" (assocSet [] (posixBasename "/d/f.txt")
          (.file 5 5 (([104] : List Nat).length : Int) (posixBasename "/d/f.txt") [104])))) := by
  constructor
  · rfl
  · exact ((c3_writeFile_postcondition (Entry.dir 0 0 0 "" [("d", Entry.dir 0 0 0 "d" [])])
      "/d/f.txt" [104] true false 5 0 0 0 "d" [] rfl).1.2.2.2.1) rfl rfl

/-- C4 fails on the code: writeFile creates a child without touching the
parent directory's size (root has one child but size 0), and a subsequent
deleteFile decrements it to −1 — the size-equals-child-count invariant is
not maintained by every mutation, although createDirectory and deleteFile
do adjust it. -/
theorem c4_size_divergence :
    ∃ r₁ : Entry, writeFile emptyRoot "/a.txt" [104, 105] true false 1 = .ok (true, r₁) ∧
      (∃ c m s n es, r₁ = Entry.dir c m s n es ∧ es.length = 1 ∧ s = 0) ∧
      deleteFile r₁ "/a.txt" 2 = .ok (.dir 0 2 (-1) "" []) := by
  refine ⟨.dir 0 0 0 "" [("a.txt", .file 1 1 2 "a.txt" [104, 105])], ?_,
    ⟨0, 0, 0, "", [("a.txt", .file 1 1 2 "a.txt" [104, 105])], rfl, rfl, rfl⟩, ?_⟩
  · rfl
  · rfl

/-- C9: for every path whose parent directory exists, createDirectory
succeeds unconditionally — replacing whatever entry (file or non-empty
directory) already sits at the basename with a fresh empty directory and
incrementing the parent's size regardless — it can never fail FileExists
(its only failures are parent-chain lookup failures), and yet FileExists is
among the error codes the createDirectory response schema declares legal. -/
theorem c9_createDirectory_replaces (root : Entry) (p : String) (now : Nat)
    (pc pm : Nat) (ps : Int) (pn : String) (pes : List (String × Entry))
    (hParent : lookupParts root (normSegs (posixDirname p)) = some (.dir pc pm ps pn pes)) :
    (∃ root', createDirectory root p now = .ok root' ∧
      lookupParts root' (normSegs (posixDirname p)) =
        some (.dir pc now (ps + 1) pn (assocSet pes (posixBasename p)
          (.dir now now 0 (posixBasename p) [])))) ∧
    (∀ r q t err, createDirectory r q t = .error err → fsErrorCode err ≠ "FileExists") ∧
    "FileExists" ∈ createDirectoryAllowedErrorCodes := by
  simp only [normSegs] at hParent
  refine ⟨?_, ?_, ?_⟩
  · refine ⟨replaceAt root ((splitPath (posixDirname p)).filter (fun s => s ≠ ""))
      (.dir pc now (ps + 1) pn (assocSet pes (posixBasename p)
        (.dir now now 0 (posixBasename p) []))), ?_, ?_⟩
    · simp only [createDirectory]
      rw [modifyAt_filter]
      rw [modifyAt_eq_ok root ((splitPath (posixDirname p)).filter (fun s => s ≠ ""))
        (posixDirname p)
        (fun e =>
          match e with
          | .file _ _ _ _ _ => .error (.fileNotADirectory (posixDirname p))
          | .dir c _ s n entries =>
            .ok ((), .dir c now (s + 1) n
              (assocSet entries (posixBasename p) (.dir now now 0 (posixBasename p) []))))
        (.dir pc pm ps pn pes) _ () hParent rfl]
    · simp only [normSegs]
      exact lookup_replaceAt_self _ _ _ _ hParent
  · intro r q t err h
    simp only [createDirectory] at h
    split at h
    · rename_i e heq
      have herr : e = err := Except.error.inj h
      subst herr
      rcases modifyAt_error_cases _ _ _ _ _ heq with h1 | ⟨tt, _, hf⟩
      · subst h1
        simp [fsErrorCode]
      · cases tt with
        | file cc mm ss nn dd =>
          simp only at hf
          have := Except.error.inj hf
          subst this
          simp [fsErrorCode]
        | dir cc mm ss nn ees => simp at hf
    · simp at h
  · simp [createDirectoryAllowedErrorCodes]

/-- Witness for C9 at a concrete tree: createDirectory over an existing
non-empty directory replaces it and still increments the parent's size. -/
theorem c9_createDirectory_witness :
    lookupParts (Entry.dir 0 0 7 "" [("d", Entry.dir 0 0 1 "d" [("x", Entry.file 0 0 0 "x" [])])])
      (normSegs (posixDirname "/d")) =
      some (.dir 0 0 7 "" [("d", Entry.dir 0 0 1 "d" [("x", Entry.file 0 0 0 "x" [])])]) ∧
    (∃ root', createDirectory (Entry.dir 0 0 7 ""
        [("d", Entry.dir 0 0 1 "d" [("x", Entry.file 0 0 0 "x" [])])]) "/d" 9 = .ok root' ∧
      lookupParts root' (normSegs (posixDirname "/d")) =
        some (.dir 0 9 (7 + 1) "" (assocSet [("d", Entry.dir 0 0 1 "d" [("x", Entry.file 0 0 0 "x" [])])]
          (posixBasename "/d") (.dir 9 9 0 (posixBasename "/d") [])))) := by
  constructor
  · rfl
  · exact (c9_createDirectory_replaces (Entry.dir 0 0 7 ""
      [("d", Entry.dir 0 0 1 "d" [("x", Entry.file 0 0 0 "x" [])])]) "/d" 9
      0 0 7 "" [("d", Entry.dir 0 0 1 "d" [("x", Entry.file 0 0 0 "x" [])])] rfl).1

/-- C5, amended: every failure the tree raises carries one of the five codes
FileNotFound, FileExists, FileIsADirectory, FileNotADirectory, NoPermissions
(FileNotADirectory, raised by lookupDirectory on a non-directory, is outside
the claimed four-code set); the dispatcher's errorResponseFromError converts
exactly the four codes FileNotFound, FileExists, FileIsADirectory and
NoPermissions into failure Responses carrying the matching error code, and
rethrows (does not convert) everything else, FileNotADirectory included. -/
theorem c5_taxonomy_amended :
    ∀ (e : FsError) (cid : String),
      fsErrorCode e ∈ ["FileNotFound", "FileExists", "FileIsADirectory",
        "FileNotADirectory", "NoPermissions"] ∧
      ((errorResponseFromError e cid).isSome ↔
        fsErrorCode e ∈ ["FileNotFound", "FileExists", "FileIsADirectory", "NoPermissions"]) ∧
      (∀ r, errorResponseFromError e cid = some r →
        r.messageType = 1 ∧
        jsonField r.messageJson "success" = some (.bool false) ∧
        jsonField r.messageJson "error" = some (.str (fsErrorCode e)) ∧
        jsonField r.messageJson "commandId" = some (.str cid)) := by
  intro e cid
  refine ⟨?_, ?_, ?_⟩
  · cases e <;> simp [fsErrorCode]
  · cases e <;> simp [errorResponseFromError, fsErrorCode]
  · intro r hr
    cases e <;>
      simp only [errorResponseFromError, fsErrorCode, errorResponseMsg] at hr <;>
      first
        | (rw [← Option.some.inj hr]
           exact ⟨rfl, rfl, rfl, rfl⟩)
        | simp at hr

/-- C5 fails as frozen: on a tree holding a file at /a.txt, the tree's
lookupDirectory raises a FileNotADirectory failure — a code outside the
claimed closed set {FileNotFound, FileExists, FileIsADirectory,
NoPermissions} — and the dispatcher does not convert it into a Response. -/
theorem c5_taxonomy_counterexample :
    lookupDirectory (Entry.dir 0 0 0 "" [("a.txt", Entry.file 0 0 2 "a.txt" [104, 105])])
      "/a.txt" false = .error (.fileNotADirectory "/a.txt") ∧
    fsErrorCode (.fileNotADirectory "/a.txt") ∉
      ["FileNotFound", "FileExists", "FileIsADirectory", "NoPermissions"] ∧
    errorResponseFromError (.fileNotADirectory "/a.txt") wUuid = none := by
  refine ⟨rfl, ?_, rfl⟩
  simp [fsErrorCode]

/-- Witness for the amended C5 at a concrete error and response. -/
theorem c5_taxonomy_witness :
    errorResponseFromError (.fileNotFound "/x") wUuid =
      some (errorResponseMsg "FileNotFound" wUuid) ∧
    (errorResponseMsg "FileNotFound" wUuid).messageType = 1 ∧
    jsonField (errorResponseMsg "FileNotFound" wUuid).messageJson "error" =
      some (.str (fsErrorCode (.fileNotFound "/x"))) := by
  refine ⟨rfl, ?_, ?_⟩
  · exact ((c5_taxonomy_amended (.fileNotFound "/x") wUuid).2.2
      (errorResponseMsg "FileNotFound" wUuid) rfl).1
  · exact ((c5_taxonomy_amended (.fileNotFound "/x") wUuid).2.2
      (errorResponseMsg "FileNotFound" wUuid) rfl).2.2.1

/-- A strict schema rejects a message whose json object carries a key
outside the allowed set. -/
theorem commandShapeOk_false (m : Message) (fields : List (String × Json))
    (allowed : List String) (k : String) (v : Json)
    (hObj : m.messageJson = .obj fields) (hMem : (k, v) ∈ fields)
    (hK : k ∉ allowed) : commandShapeOk m allowed = false := by
  simp only [commandShapeOk, hObj]
  have hAll : fields.all (fun kv => decide (kv.1 ∈ allowed)) = false := by
    cases hb : fields.all (fun kv => decide (kv.1 ∈ allowed)) with
    | false => rfl
    | true =>
      rw [List.all_eq_true] at hb
      exact absurd (of_decide_eq_true (hb ⟨k, v⟩ hMem)) hK
  simp [hAll]

/-- C7: strict command validation. A command message whose JSON carries any
field outside its operation's declared field set (beyond command, commandId
and the operation-specific fields) is rejected by the command union: no
variant accepts it, since the variants are discriminated by disjoint command
literals and each validates its json object strictly. -/
theorem c7_strict_commands (m : Message) (fields : List (String × Json)) (c k : String)
    (v : Json)
    (hObj : m.messageJson = .obj fields)
    (hCmd : assocGet fields "command" = some (.str c))
    (hOp : c ∈ allOperationNames)
    (hMem : (k, v) ∈ fields)
    (hK : k ∉ declaredFields c) :
    allCommandsAccept m = false := by
  clear hOp
  cases hacc : allCommandsAccept m with
  | false => rfl
  | true =>
    exfalso
    simp only [allCommandsAccept, Bool.or_eq_true] at hacc
    rcases hacc with ((((h | h) | h) | h) | h)
    · simp only [pathOnlyCommandCheck, Bool.and_eq_true] at h
      obtain ⟨⟨⟨hShape, hCmdLit⟩, -⟩, -⟩ := h
      simp only [hObj, jsonField, hCmd] at hCmdLit
      have hc : c ∈ pathOnlyCommandNames := of_decide_eq_true hCmdLit
      have hK' : k ∉ (["command", "commandId", "path"] : List String) := by
        rw [show declaredFields c = ["command", "commandId", "path"] from by
          simp [declaredFields, hc]] at hK
        exact hK
      rw [commandShapeOk_false m fields _ k v hObj hMem hK'] at hShape
      simp at hShape
    · simp only [watchCommandCheck, Bool.and_eq_true] at h
      obtain ⟨⟨⟨⟨⟨hShape, hCmdLit⟩, -⟩, -⟩, -⟩, -⟩ := h
      simp only [hObj, jsonField, hCmd] at hCmdLit
      have hc : c = "watch" := of_decide_eq_true hCmdLit
      subst hc
      have hK' : k ∉ (["command", "commandId", "path", "recursive", "excludes"] : List String) := by
        rw [show declaredFields "watch" =
          ["command", "commandId", "path", "recursive", "excludes"] from by decide] at hK
        exact hK
      rw [commandShapeOk_false m fields _ k v hObj hMem hK'] at hShape
      simp at hShape
    · simp only [writeFileCommandCheck, Bool.and_eq_true] at h
      obtain ⟨⟨⟨⟨hShape, hCmdLit⟩, -⟩, -⟩, -⟩ := h
      simp only [hObj, jsonField, hCmd] at hCmdLit
      have hc : c = "writeFile" := of_decide_eq_true hCmdLit
      subst hc
      have hK' : k ∉ (["command", "commandId", "path", "create", "overwrite"] : List String) := by
        rw [show declaredFields "writeFile" =
          ["command", "commandId", "path", "create", "overwrite"] from by decide] at hK
        exact hK
      rw [commandShapeOk_false m fields _ k v hObj hMem hK'] at hShape
      simp at hShape
    · simp only [renameCommandCheck, Bool.and_eq_true] at h
      obtain ⟨⟨⟨⟨⟨hShape, hCmdLit⟩, -⟩, -⟩, -⟩, -⟩ := h
      simp only [hObj, jsonField, hCmd] at hCmdLit
      have hc : c = "rename" := of_decide_eq_true hCmdLit
      subst hc
      have hK' : k ∉ (["command", "commandId", "oldPath", "newPath", "overwrite"] : List String) := by
        rw [show declaredFields "rename" =
          ["command", "commandId", "oldPath", "newPath", "overwrite"] from by decide] at hK
        exact hK
      rw [commandShapeOk_false m fields _ k v hObj hMem hK'] at hShape
      simp at hShape
    · simp only [copyCommandCheck, Bool.and_eq_true] at h
      obtain ⟨⟨⟨⟨⟨hShape, hCmdLit⟩, -⟩, -⟩, -⟩, -⟩ := h
      simp only [hObj, jsonField, hCmd] at hCmdLit
      have hc : c = "copy" := of_decide_eq_true hCmdLit
      subst hc
      have hK' : k ∉ (["command", "commandId", "sourcePath", "destinationPath", "overwrite"] :
          List String) := by
        rw [show declaredFields "copy" =
          ["command", "commandId", "sourcePath", "destinationPath", "overwrite"] from by decide] at hK
        exact hK
      rw [commandShapeOk_false m fields _ k v hObj hMem hK'] at hShape
      simp at hShape

/-- Witness for C7: a status command carrying an extra field foo is rejected
by the whole union. -/
theorem c7_strict_commands_witness :
    assocGet [("command", Json.str "status"), ("commandId", Json.str wUuid),
      ("path", Json.str "/a"), ("foo", Json.num 1)] "command" = some (.str "status") ∧
    "status" ∈ allOperationNames ∧
    ("foo", Json.num 1) ∈ [("command", Json.str "status"), ("commandId", Json.str wUuid),
      ("path", Json.str "/a"), ("foo", Json.num 1)] ∧
    "foo" ∉ declaredFields "status" ∧
    allCommandsAccept ⟨0, .obj [("command", Json.str "status"), ("commandId", Json.str wUuid),
      ("path", Json.str "/a"), ("foo", Json.num 1)], none⟩ = false := by
  refine ⟨rfl, by decide, by simp, by decide, ?_⟩
  exact c7_strict_commands _ [("command", Json.str "status"), ("commandId", Json.str wUuid),
    ("path", Json.str "/a"), ("foo", Json.num 1)] "status" "foo" (Json.num 1)
    rfl rfl (by decide) (by simp) (by decide)

/-- C8: response correlation in the client's receive path. For any decoded
Response frame: when its commandId has no pending entry the client raises a
fatal local error (it neither resolves anything nor drops the frame); when
it matches, exactly that entry is removed and resolved — every other pending
entry is untouched — and this holds for every pending-map state, i.e.
regardless of the order in which responses arrive relative to command
submission. -/
theorem c8_unmatched_response (pending : List (String × Nat)) (bytes : List Nat)
    (m : Message) (cid : String)
    (hNodup : (pending.map Prod.fst).Nodup)
    (h1 : messageFromBytes bytes = some m)
    (h2 : m.messageType = 1)
    (h3 : jsonField m.messageJson "commandId" = some (.str cid)) :
    (assocGet pending cid = none → clientHandleFrame pending bytes = .fatalError) ∧
    (∀ token, assocGet pending cid = some token →
      clientHandleFrame pending bytes = .resolved cid token (assocDelete pending cid) ∧
      assocGet (assocDelete pending cid) cid = none ∧
      (∀ c', c' ≠ cid → assocGet (assocDelete pending cid) c' = assocGet pending c')) := by
  constructor
  · intro hn
    simp [clientHandleFrame, h1, h2, h3, hn]
  · intro token ht
    refine ⟨by simp [clientHandleFrame, h1, h2, h3, ht], ?_, ?_⟩
    · exact assocGet_delete_self pending cid hNodup
    · intro c' hc
      exact assocGet_delete_other pending cid c' hc

/-- Witness for C8: two pending requests; the response for the second
arrives first and resolves exactly it, while on an empty pending map the
same frame is a fatal error. -/
theorem c8_unmatched_response_witness :
    messageFromBytes (arrayBufferFromMessage
      ⟨1, .obj [("commandId", .str wUuid2), ("success", .bool true)], none⟩) =
      some ⟨1, .obj [("commandId", .str wUuid2), ("success", .bool true)], none⟩ ∧
    clientHandleFrame [(wUuid, 1), (wUuid2, 2)]
      (arrayBufferFromMessage
        ⟨1, .obj [("commandId", .str wUuid2), ("success", .bool true)], none⟩) =
      .resolved wUuid2 2 (assocDelete [(wUuid, 1), (wUuid2, 2)] wUuid2) ∧
    clientHandleFrame []
      (arrayBufferFromMessage
        ⟨1, .obj [("commandId", .str wUuid2), ("success", .bool true)], none⟩) =
      .fatalError := by
  refine ⟨rfl, ?_, ?_⟩
  · exact ((c8_unmatched_response [(wUuid, 1), (wUuid2, 2)]
      (arrayBufferFromMessage ⟨1, .obj [("commandId", .str wUuid2), ("success", .bool true)], none⟩)
      ⟨1, .obj [("commandId", .str wUuid2), ("success", .bool true)], none⟩ wUuid2 (by decide)
      rfl rfl rfl).2 2 rfl).1
  · exact (c8_unmatched_response []
      (arrayBufferFromMessage ⟨1, .obj [("commandId", .str wUuid2), ("success", .bool true)], none⟩)
      ⟨1, .obj [("commandId", .str wUuid2), ("success", .bool true)], none⟩ wUuid2 (by decide)
      rfl rfl rfl).1 rfl

/-- C10: reading an empty file yields a present zero-length payload on the
client. The server's readFile handler answers an existing empty file with a
success Response whose binary payload is present and zero-length; the wire
codec transmits no binary segment for it, so the decoded frame has the
payload absent; and the client-side readFile success schema substitutes an
empty byte array for the absent payload, so validation yields a present
zero-length binary. -/
theorem c10_readFile_empty_binary (root : Entry) (p cid : String)
    (fc fm : Nat) (fsz : Int) (fn : String)
    (hFile : lookupParts root (splitPath p) = some (.file fc fm fsz fn []))
    (hUuid : isUuid cid = true)
    (hJson : jsonFromBytes (jsonToBytes (.obj [("success", .bool true),
        ("commandId", .str cid)])) =
      some (.obj [("success", .bool true), ("commandId", .str cid)]))
    (hLen : (jsonToBytes (.obj [("success", .bool true), ("commandId", .str cid)])).length <
      4294967296) :
    serverReadFile root p cid =
      some ⟨1, .obj [("success", .bool true), ("commandId", .str cid)], some []⟩ ∧
    ∃ m', messageFromBytes (arrayBufferFromMessage
        ⟨1, .obj [("success", .bool true), ("commandId", .str cid)], some []⟩) = some m' ∧
      m'.messageBinary = none ∧
      readFileSuccessParse m' = some ⟨cid, []⟩ := by
  constructor
  · simp [serverReadFile, lookupFileE, lookupE, hFile]
  · refine ⟨⟨1, .obj [("success", .bool true), ("commandId", .str cid)], none⟩, ?_, rfl, ?_⟩
    · have hschema : messageSchemaCheck
          ⟨1, .obj [("success", .bool true), ("commandId", .str cid)], some []⟩ = true := by
        have hga : assocGet [("success", Json.bool true), ("commandId", Json.str cid)]
            "commandId" = some (.str cid) := rfl
        have hgs : assocGet [("success", Json.bool true), ("commandId", Json.str cid)]
            "success" = some (.bool true) := rfl
        simp [messageSchemaCheck, responseJsonOk, jsonField, hga, hgs, hUuid]
      have := decode_encode_core
        ⟨1, .obj [("success", .bool true), ("commandId", .str cid)], some []⟩ hschema hJson
        (by simpa using hLen)
      simpa using this
    · have hga : assocGet [("success", Json.bool true), ("commandId", Json.str cid)]
          "commandId" = some (.str cid) := rfl
      have hgs : assocGet [("success", Json.bool true), ("commandId", Json.str cid)]
          "success" = some (.bool true) := rfl
      have hall : ([("success", Json.bool true), ("commandId", Json.str cid)]).all
          (fun kv => kv.1 = "commandId" || kv.1 = "success") = true := rfl
      simp [readFileSuccessParse, hga, hgs, hall, hUuid]

/-- Witness for C10 at a concrete tree holding an empty file. -/
theorem c10_readFile_empty_binary_witness :
    lookupParts (Entry.dir 0 0 0 "" [("e.txt", Entry.file 4 4 0 "e.txt" [])])
      (splitPath "/e.txt") = some (.file 4 4 0 "e.txt" []) ∧
    (serverReadFile (Entry.dir 0 0 0 "" [("e.txt", Entry.file 4 4 0 "e.txt" [])]) "/e.txt" wUuid =
      some ⟨1, .obj [("success", .bool true), ("commandId", .str wUuid)], some []⟩ ∧
    ∃ m', messageFromBytes (arrayBufferFromMessage
        ⟨1, .obj [("success", .bool true), ("commandId", .str wUuid)], some []⟩) = some m' ∧
      m'.messageBinary = none ∧
      readFileSuccessParse m' = some ⟨wUuid, []⟩) := by
  constructor
  · rfl
  · exact c10_readFile_empty_binary (Entry.dir 0 0 0 "" [("e.txt", Entry.file 4 4 0 "e.txt" [])])
      "/e.txt" wUuid 4 4 0 "e.txt" rfl rfl rfl (by norm_num [show (jsonToBytes (.obj
        [("success", .bool true), ("commandId", .str wUuid)])).length = 67 from rfl])

theorem exists_diverge (xs ys : List String)
    (h1 : ¬ xs <+: ys) (h2 : ¬ ys <+: xs) :
    ∃ cp a b as bs, xs = cp ++ a :: as ∧ ys = cp ++ b :: bs ∧ a ≠ b := by
  induction xs generalizing ys with
  | nil => exact absurd (List.nil_prefix) h1
  | cons x xs' ih =>
    cases ys with
    | nil => exact absurd (List.nil_prefix) h2
    | cons y ys' =>
      by_cases hxy : x = y
      · subst hxy
        have h1' : ¬ xs' <+: ys' := fun hp => h1 (List.cons_prefix_cons.mpr ⟨rfl, hp⟩)
        have h2' : ¬ ys' <+: xs' := fun hp => h2 (List.cons_prefix_cons.mpr ⟨rfl, hp⟩)
        obtain ⟨cp, a, b, as, bs, hx, hy, hab⟩ := ih ys' h1' h2'
        exact ⟨x :: cp, a, b, as, bs, by simp [hx], by simp [hy], hab⟩
      · exact ⟨[], x, y, xs', ys', rfl, rfl, hxy⟩

/-- C6, amended: rename postcondition for non-nested locations. For every
oldPath naming an existing entry (held under its parent directory with
matching key and name) and every newPath whose parent directory exists,
provided neither normalized path is a prefix of the other (in particular the
two paths differ and neither endpoint lies inside the other's subtree):
rename fails FileExists when an entry exists at newPath and overwrite is
false; otherwise it succeeds, and afterwards the new parent's child map
holds the entry under newPath's basename with its name updated to that
basename, while the old parent's child map no longer holds oldPath's
basename — the entry ends up in exactly one of the two locations, never
zero or two. (Without the non-nesting proviso the claim fails — see the
counterexample.) -/
theorem c6_rename_amended (root : Entry) (oldPath newPath : String) (overwrite : Bool)
    (O N : List String) (oldBase newBase : String) (e : Entry)
    (oc om : Nat) (os : Int) (onm : String) (oes : List (String × Entry))
    (nc nm : Nat) (ns : Int) (nnm : String) (nes : List (String × Entry))
    (hOsplit : normSegs oldPath = O ++ [oldBase])
    (hOdir : normSegs (posixDirname oldPath) = O)
    (hNsplit : normSegs newPath = N ++ [newBase])
    (hNdir : normSegs (posixDirname newPath) = N)
    (hNbase : posixBasename newPath = newBase)
    (hOldB : oldBase ≠ "") (hNewB : newBase ≠ "")
    (hOc : "" ∉ O) (hNc : "" ∉ N)
    (hOldParent : lookupParts root O = some (.dir oc om os onm oes))
    (hOldChild : assocGet oes oldBase = some e)
    (hName : entryName e = oldBase)
    (hNodup : (oes.map Prod.fst).Nodup)
    (hNewParent : lookupParts root N = some (.dir nc nm ns nnm nes))
    (hSep1 : ¬ ((O ++ [oldBase]) <+: (N ++ [newBase])))
    (hSep2 : ¬ ((N ++ [newBase]) <+: (O ++ [oldBase]))) :
    (overwrite = false → lookupParts root (N ++ [newBase]) ≠ none →
      renameEntry root oldPath newPath overwrite = .error (.fileExists newPath)) ∧
    ((overwrite = true ∨ lookupParts root (N ++ [newBase]) = none) →
      ∃ root₂, renameEntry root oldPath newPath overwrite = .ok root₂ ∧
        (∃ c' m' s' n' es', lookupParts root₂ N = some (.dir c' m' s' n' es') ∧
          assocGet es' newBase = some (setEntryName e newBase)) ∧
        (∃ c' m' s' n' es', lookupParts root₂ O = some (.dir c' m' s' n' es') ∧
          assocGet es' oldBase = none)) := by
  have hOdir' : (splitPath (posixDirname oldPath)).filter (fun s => s ≠ "") = O := hOdir
  have hNdir' : (splitPath (posixDirname newPath)).filter (fun s => s ≠ "") = N := hNdir
  have hOsplit' : (splitPath oldPath).filter (fun s => s ≠ "") = O ++ [oldBase] := hOsplit
  have hNsplit' : (splitPath newPath).filter (fun s => s ≠ "") = N ++ [newBase] := hNsplit
  constructor
  · intro hov hex
    have hsome : (lookupParts root (splitPath newPath)).isSome = true := by
      rw [lookupParts_filter, hNsplit']
      exact Option.isSome_iff_ne_none.mpr hex
    simp [renameEntry, lookupSilent, hov, hsome]
  · intro hB
    have hguard : (!overwrite && (lookupParts root (splitPath newPath)).isSome) = false := by
      rcases hB with hov | hnone
      · simp [hov]
      · rw [lookupParts_filter, hNsplit', hnone]
        simp
    have hLold : lookupParts root (splitPath oldPath) = some e := by
      rw [lookupParts_filter, hOsplit', lookupParts_append]
      simp [hOldParent, lookupParts, hOldB, hOldChild]
    have hLookupE : lookupE root oldPath = .ok e := by
      simp [lookupE, hLold]
    have hOP' : lookupParts root (splitPath (posixDirname oldPath)) =
        some (.dir oc om os onm oes) := by
      rw [lookupParts_filter, hOdir']
      exact hOldParent
    have hNP' : lookupParts root (splitPath (posixDirname newPath)) =
        some (.dir nc nm ns nnm nes) := by
      rw [lookupParts_filter, hNdir']
      exact hNewParent
    have hLDold : lookupDirectory root (posixDirname oldPath) false =
        .ok (.dir oc om os onm oes) := by
      simp [lookupDirectory, lookupE, hOP']
    have hLDnew : lookupDirectory root (posixDirname newPath) false =
        .ok (.dir nc nm ns nnm nes) := by
      simp [lookupDirectory, lookupE, hNP']
    have hDel := modifyAt_eq_ok root O (posixDirname oldPath)
      (fun x =>
        match x with
        | .file _ _ _ _ _ => Except.error (.fileNotADirectory (posixDirname oldPath))
        | .dir c m s n entries =>
          Except.ok ((), Entry.dir c m s n (assocDelete entries oldBase)))
      (.dir oc om os onm oes) (.dir oc om os onm (assocDelete oes oldBase)) ()
      hOldParent rfl
    have hrun : renameEntry root oldPath newPath overwrite =
        match modifyAtSilent (replaceAt root O (.dir oc om os onm (assocDelete oes oldBase))) N
          (fun x =>
            match x with
            | .dir c m s n entries =>
              Entry.dir c m s n (assocSet entries newBase (setEntryName e newBase))
            | .file c m s n d => Entry.file c m s n d) with
        | some r => Except.ok r
        | none => Except.ok (replaceAt root O (.dir oc om os onm (assocDelete oes oldBase))) := by
      simp only [renameEntry, lookupSilent]
      rw [if_neg (by simp [hguard])]
      simp only [hLookupE, hLDold, hLDnew, hName, hNbase]
      rw [modifyAt_filter, hOdir']
      simp only [hDel]
      rw [modifyAtSilent_filter, hNdir']
    by_cases hON : O = N
    · subst hON
      have hd := Option.some.inj (hOldParent.symm.trans hNewParent)
      injection hd with h1 h2 h3 h4 h5
      subst h1
      subst h2
      subst h3
      subst h4
      subst h5
      have hne : oldBase ≠ newBase := by
        intro h
        exact hSep1 (h ▸ List.prefix_refl _)
      have hlook₁ : lookupParts (replaceAt root O (.dir oc om os onm (assocDelete oes oldBase))) O =
          some (.dir oc om os onm (assocDelete oes oldBase)) :=
        lookup_replaceAt_self root O _ _ hOldParent
      have hAtt : modifyAtSilent (replaceAt root O (.dir oc om os onm (assocDelete oes oldBase))) O
          (fun x =>
            match x with
            | .dir c m s n entries =>
              Entry.dir c m s n (assocSet entries newBase (setEntryName e newBase))
            | .file c m s n d => Entry.file c m s n d) =
          some (replaceAt (replaceAt root O (.dir oc om os onm (assocDelete oes oldBase))) O
            (.dir oc om os onm (assocSet (assocDelete oes oldBase) newBase
              (setEntryName e newBase)))) :=
        modifyAtSilent_eq _ O _ oc om os onm (assocDelete oes oldBase) hlook₁
      refine ⟨replaceAt (replaceAt root O (.dir oc om os onm (assocDelete oes oldBase))) O
          (.dir oc om os onm (assocSet (assocDelete oes oldBase) newBase
            (setEntryName e newBase))), ?_, ?_, ?_⟩
      · simp only [hrun, hAtt]
      · refine ⟨oc, om, os, onm,
          assocSet (assocDelete oes oldBase) newBase (setEntryName e newBase), ?_, ?_⟩
        · exact lookup_replaceAt_self _ O _ _ hlook₁
        · exact assocGet_set_self _ _ _
      · refine ⟨oc, om, os, onm,
          assocSet (assocDelete oes oldBase) newBase (setEntryName e newBase), ?_, ?_⟩
        · exact lookup_replaceAt_self _ O _ _ hlook₁
        · rw [assocGet_set_other _ _ _ _ hne]
          exact assocGet_delete_self oes oldBase hNodup
    · by_cases hpre1 : O <+: N
      · obtain ⟨t, ht⟩ := hpre1
        cases t with
        | nil => exact absurd (by simpa using ht) hON
        | cons k rest =>
          subst ht
          have hk : k ≠ "" := by
            intro h
            exact hNc (by rw [← h]; simp)
          have hkOld : k ≠ oldBase := by
            intro h
            apply hSep1
            subst h
            exact ⟨rest ++ [newBase], by simp⟩
          have hstep : lookupParts (Entry.dir oc om os onm oes) (k :: rest) =
              some (.dir nc nm ns nnm nes) := by
            have h0 := hNewParent
            rw [lookupParts_append, hOldParent] at h0
            simpa using h0
          simp only [lookupParts, if_neg hk] at hstep
          cases hch : assocGet oes k with
          | none =>
            rw [hch] at hstep
            simp at hstep
          | some ch =>
            rw [hch] at hstep
            have hlookR₁N : lookupParts
                (replaceAt root O (.dir oc om os onm (assocDelete oes oldBase)))
                (O ++ k :: rest) = some (.dir nc nm ns nnm nes) := by
              rw [lookup_replaceAt_below root O (k :: rest) _ _ hOldParent]
              simp only [lookupParts, if_neg hk]
              rw [assocGet_delete_other oes oldBase k hkOld, hch]
              exact hstep
            have hAtt : modifyAtSilent
                (replaceAt root O (.dir oc om os onm (assocDelete oes oldBase)))
                (O ++ k :: rest)
                (fun x =>
                  match x with
                  | .dir c m s n entries =>
                    Entry.dir c m s n (assocSet entries newBase (setEntryName e newBase))
                  | .file c m s n d => Entry.file c m s n d) =
                some (replaceAt
                  (replaceAt root O (.dir oc om os onm (assocDelete oes oldBase)))
                  (O ++ k :: rest)
                  (.dir nc nm ns nnm (assocSet nes newBase (setEntryName e newBase)))) :=
              modifyAtSilent_eq _ _ _ nc nm ns nnm nes hlookR₁N
            refine ⟨replaceAt
                (replaceAt root O (.dir oc om os onm (assocDelete oes oldBase)))
                (O ++ k :: rest)
                (.dir nc nm ns nnm (assocSet nes newBase (setEntryName e newBase))), ?_, ?_, ?_⟩
            · simp only [hrun, hAtt]
            · refine ⟨nc, nm, ns, nnm, assocSet nes newBase (setEntryName e newBase), ?_, ?_⟩
              · exact lookup_replaceAt_self _ _ _ _ hlookR₁N
              · exact assocGet_set_self _ _ _
            · have hch' : assocGet (assocDelete oes oldBase) k = some ch := by
                rw [assocGet_delete_other oes oldBase k hkOld]
                exact hch
              have hlookO : lookupParts
                  (replaceAt root O (.dir oc om os onm (assocDelete oes oldBase))) O =
                  some (.dir oc om os onm (assocDelete oes oldBase)) :=
                lookup_replaceAt_self root O _ _ hOldParent
              refine ⟨oc, om, os, onm,
                assocSet (assocDelete oes oldBase) k (replaceAt ch rest
                  (.dir nc nm ns nnm (assocSet nes newBase (setEntryName e newBase)))), ?_, ?_⟩
              · exact lookup_replaceAt_above _ O k rest _ oc om os onm
                  (assocDelete oes oldBase) ch hk hlookO hch'
              · rw [assocGet_set_other _ _ _ _ (fun hh => hkOld hh.symm)]
                exact assocGet_delete_self oes oldBase hNodup
      · by_cases hpre2 : N <+: O
        · obtain ⟨t, ht⟩ := hpre2
          cases t with
          | nil =>
            have hNO : N = O := by simpa using ht
            exact absurd hNO.symm hON
          | cons k rest =>
            subst ht
            have hk : k ≠ "" := by
              intro h
              exact hOc (by rw [← h]; simp)
            have hkNew : k ≠ newBase := by
              intro h
              apply hSep2
              subst h
              exact ⟨rest ++ [oldBase], by simp⟩
            have hstep : lookupParts (Entry.dir nc nm ns nnm nes) (k :: rest) =
                some (.dir oc om os onm oes) := by
              have h0 := hOldParent
              rw [lookupParts_append, hNewParent] at h0
              simpa using h0
            simp only [lookupParts, if_neg hk] at hstep
            cases hch₂ : assocGet nes k with
            | none =>
              rw [hch₂] at hstep
              simp at hstep
            | some ch₂ =>
              rw [hch₂] at hstep
              have hlookR₁N : lookupParts
                  (replaceAt root (N ++ k :: rest)
                    (.dir oc om os onm (assocDelete oes oldBase))) N =
                  some (.dir nc nm ns nnm (assocSet nes k (replaceAt ch₂ rest
                    (.dir oc om os onm (assocDelete oes oldBase))))) :=
                lookup_replaceAt_above root N k rest _ nc nm ns nnm nes ch₂ hk hNewParent hch₂
              have hAtt : modifyAtSilent
                  (replaceAt root (N ++ k :: rest)
                    (.dir oc om os onm (assocDelete oes oldBase))) N
                  (fun x =>
                    match x with
                    | .dir c m s n entries =>
                      Entry.dir c m s n (assocSet entries newBase (setEntryName e newBase))
                    | .file c m s n d => Entry.file c m s n d) =
                  some (replaceAt
                    (replaceAt root (N ++ k :: rest)
                      (.dir oc om os onm (assocDelete oes oldBase))) N
                    (.dir nc nm ns nnm (assocSet (assocSet nes k (replaceAt ch₂ rest
                        (.dir oc om os onm (assocDelete oes oldBase)))) newBase
                      (setEntryName e newBase)))) :=
                modifyAtSilent_eq _ _ _ nc nm ns nnm _ hlookR₁N
              refine ⟨replaceAt
                  (replaceAt root (N ++ k :: rest)
                    (.dir oc om os onm (assocDelete oes oldBase))) N
                  (.dir nc nm ns nnm (assocSet (assocSet nes k (replaceAt ch₂ rest
                      (.dir oc om os onm (assocDelete oes oldBase)))) newBase
                    (setEntryName e newBase))), ?_, ?_, ?_⟩
              · simp only [hrun, hAtt]
              · refine ⟨nc, nm, ns, nnm, assocSet (assocSet nes k (replaceAt ch₂ rest
                    (.dir oc om os onm (assocDelete oes oldBase)))) newBase
                    (setEntryName e newBase), ?_, ?_⟩
                · exact lookup_replaceAt_self _ _ _ _ hlookR₁N
                · exact assocGet_set_self _ _ _
              · have hbelow : lookupParts (replaceAt
                    (replaceAt root (N ++ k :: rest)
                      (.dir oc om os onm (assocDelete oes oldBase))) N
                    (.dir nc nm ns nnm (assocSet (assocSet nes k (replaceAt ch₂ rest
                        (.dir oc om os onm (assocDelete oes oldBase)))) newBase
                      (setEntryName e newBase)))) (N ++ k :: rest) =
                    some (.dir oc om os onm (assocDelete oes oldBase)) := by
                  rw [lookup_replaceAt_below _ N (k :: rest) _ _ hlookR₁N]
                  simp only [lookupParts, if_neg hk]
                  rw [assocGet_set_other _ _ _ _ hkNew, assocGet_set_self]
                  exact lookup_replaceAt_self ch₂ rest _ _ hstep
                refine ⟨oc, om, os, onm, assocDelete oes oldBase, hbelow, ?_⟩
                exact assocGet_delete_self oes oldBase hNodup
        · obtain ⟨cp, a, b, as, bs, hOeq, hNeq, hab⟩ := exists_diverge O N hpre1 hpre2
          have ha : a ≠ "" := by
            intro h
            exact hOc (by rw [hOeq, ← h]; simp)
          have hb : b ≠ "" := by
            intro h
            exact hNc (by rw [hNeq, ← h]; simp)
          have hcp : "" ∉ cp := by
            intro h
            exact hOc (by rw [hOeq]; exact List.mem_append_left _ h)
          have hlookR₁N : lookupParts
              (replaceAt root O (.dir oc om os onm (assocDelete oes oldBase))) N =
              some (.dir nc nm ns nnm nes) := by
            rw [hOeq, hNeq, lookup_replaceAt_diverge root cp a b as bs _ hab ha hb hcp,
              ← hNeq]
            exact hNewParent
          have hAtt : modifyAtSilent
              (replaceAt root O (.dir oc om os onm (assocDelete oes oldBase))) N
              (fun x =>
                match x with
                | .dir c m s n entries =>
                  Entry.dir c m s n (assocSet entries newBase (setEntryName e newBase))
                | .file c m s n d => Entry.file c m s n d) =
              some (replaceAt
                (replaceAt root O (.dir oc om os onm (assocDelete oes oldBase))) N
                (.dir nc nm ns nnm (assocSet nes newBase (setEntryName e newBase)))) :=
            modifyAtSilent_eq _ _ _ nc nm ns nnm nes hlookR₁N
          refine ⟨replaceAt
              (replaceAt root O (.dir oc om os onm (assocDelete oes oldBase))) N
              (.dir nc nm ns nnm (assocSet nes newBase (setEntryName e newBase))), ?_, ?_, ?_⟩
          · simp only [hrun, hAtt]
          · refine ⟨nc, nm, ns, nnm, assocSet nes newBase (setEntryName e newBase), ?_, ?_⟩
            · exact lookup_replaceAt_self _ _ _ _ hlookR₁N
            · exact assocGet_set_self _ _ _
          · have hlookO : lookupParts (replaceAt
                (replaceAt root O (.dir oc om os onm (assocDelete oes oldBase))) N
                (.dir nc nm ns nnm (assocSet nes newBase (setEntryName e newBase)))) O =
                some (.dir oc om os onm (assocDelete oes oldBase)) := by
              rw [hNeq, hOeq, lookup_replaceAt_diverge _ cp b a bs as _
                (fun hh => hab hh.symm) hb ha hcp, ← hOeq]
              exact lookup_replaceAt_self root O _ _ hOldParent
            refine ⟨oc, om, os, onm, assocDelete oes oldBase, hlookO, ?_⟩
            exact assocGet_delete_self oes oldBase hNodup

/-- C6 fails as frozen: renaming a path onto itself with overwrite succeeds,
and afterwards the entry is still present in the old parent's child map —
contradicting "afterwards the entry is absent from the old parent's child
map" for this oldPath/newPath pair, both of which satisfy the claim's
hypotheses. -/
theorem c6_rename_counterexample :
    renameEntry (Entry.dir 0 0 0 "" [("a.txt", Entry.file 1 1 2 "a.txt" [104, 105])])
      "/a.txt" "/a.txt" true =
      .ok (Entry.dir 0 0 0 "" [("a.txt", Entry.file 1 1 2 "a.txt" [104, 105])]) ∧
    assocGet [("a.txt", Entry.file 1 1 2 "a.txt" [104, 105])] (posixBasename "/a.txt") =
      some (Entry.file 1 1 2 "a.txt" [104, 105]) := by
  refine ⟨?_, ?_⟩ <;> rfl

/-- Witness for the amended C6 at the spec's scenario: rename /a.txt into
the empty directory /dir. -/
theorem c6_rename_witness :
    lookupParts c6Root (["dir"] ++ ["a.txt"]) = none ∧
    ∃ root₂, renameEntry c6Root "/a.txt" "/dir/a.txt" false = .ok root₂ ∧
      (∃ c' m' s' n' es', lookupParts root₂ ["dir"] = some (.dir c' m' s' n' es') ∧
        assocGet es' "a.txt" =
          some (setEntryName (Entry.file 1 1 2 "a.txt" [104, 105]) "a.txt")) ∧
      (∃ c' m' s' n' es', lookupParts root₂ [] = some (.dir c' m' s' n' es') ∧
        assocGet es' "a.txt" = none) := by
  refine ⟨rfl, ?_⟩
  exact (c6_rename_amended c6Root "/a.txt" "/dir/a.txt" false [] ["dir"] "a.txt" "a.txt"
    (Entry.file 1 1 2 "a.txt" [104, 105]) 0 0 0 ""
    [("a.txt", Entry.file 1 1 2 "a.txt" [104, 105]), ("dir", Entry.dir 0 0 0 "dir" [])]
    0 0 0 "dir" []
    rfl rfl rfl rfl rfl (by decide) (by decide) (by decide) (by decide)
    rfl rfl rfl (by decide) rfl (by decide) (by decide)).2 (Or.inr rfl)
